import Mathlib

/-!
Shallow embedding of the configManager Go package (package configManager):
the Value wrappers, the range-constrained wrappers, and the ConfigSet
registration / set / parse / save pipeline. Go maps are modelled as lists
with unique keys; the concrete JSON/XML encoders and decoders are external
to the package and are modelled at the decoded-document boundary.
-/

/-- Errors produced by the package operations (ErrParse, ErrRange, ErrNoParser
and the fmt.Errorf cases, identified by which call site builds them). -/
inductive GoErr where
  | errParse
  | errRange
  | errNoParser
  | errNoSuchOption (name : String)
  | errNoSuchActualOption (name : String)
  | errOptionRedefined (name : String)
deriving DecidableEq

/-- Model of a Go float64/float32 value as the float wrappers and their
registration observe it: IEEE NaN, a signed infinity, or a finite value.
A finite value is kept as the exact decimal num / 10 ^ pow10 the parsed
text denotes (the final IEEE binary rounding step, the float32 narrowing
conversion and negative zero are not modelled; the representation is not
canonical, so two representations may denote one value). -/
inductive GoFloat where
  | nan
  | inf (neg : Bool)
  | finite (num : Int) (pow10 : Nat)
deriving DecidableEq

/-- IEEE strict less-than on the model: false whenever either side is
NaN; finite values compare by cross multiplication. -/
def GoFloat.flt : GoFloat → GoFloat → Bool
  | nan, _ => false
  | _, nan => false
  | inf n1, inf n2 => n1 && !n2
  | inf n1, finite _ _ => n1
  | finite _ _, inf n2 => !n2
  | finite m1 p1, finite m2 p2 => decide (m1 * 10 ^ p2 < m2 * 10 ^ p1)

/-- IEEE less-or-equal on the model: false whenever either side is NaN. -/
def GoFloat.fle : GoFloat → GoFloat → Bool
  | nan, _ => false
  | _, nan => false
  | inf n1, inf n2 => n1 || !n2
  | inf n1, finite _ _ => n1
  | finite _ _, inf n2 => !n2
  | finite m1 p1, finite m2 p2 => decide (m1 * 10 ^ p2 ≤ m2 * 10 ^ p1)

/-- Dynamic (Go any) values returned by Value.Get. The package stores
bools, strings, 32/64-bit integers and floats in the wrappers modelled
here. -/
inductive GoAny where
  | aBool (b : Bool)
  | aString (s : String)
  | aInt (i : Int)
  | aFloat (x : GoFloat)
deriving DecidableEq

/-- Go strconv lower: ASCII lowercasing of a single character. -/
def lowerChar (c : Char) : Char :=
  if 'A' ≤ c ∧ c ≤ 'Z' then Char.ofNat (c.toNat + 32) else c

/-- Decimal digit character for d < 10. -/
def digitCh (d : Nat) : Char := Char.ofNat (48 + d)

/-- Digit loop of strconv.FormatInt in base 10, prepending digits to acc;
fuel bounds the recursion and any fuel above the digit count is enough. -/
def toDecGo : Nat → Nat → List Char → List Char
  | 0, _, acc => acc
  | fuel + 1, n, acc =>
    if n < 10 then digitCh n :: acc
    else toDecGo fuel (n / 10) (digitCh (n % 10) :: acc)

/-- Decimal digits of a natural number, most significant first
(the digit production of strconv.FormatInt in base 10). -/
def toDec (n : Nat) : List Char := toDecGo (n + 1) n []

/-- Go strconv.FormatInt(i, 10). -/
def goFormatInt (i : Int) : String :=
  if i < 0 then String.mk ('-' :: toDec i.natAbs) else String.mk (toDec i.toNat)

/-- Go strconv.FormatBool. -/
def goFormatBool (b : Bool) : String := if b then "true" else "false"

/-- Go strconv.ParseBool: first component is the parsed value (false on
failure, matching the zero result Go returns alongside the error), second
component is the success flag. -/
def goParseBool (s : String) : Bool × Bool :=
  if s = "1" ∨ s = "t" ∨ s = "T" ∨ s = "TRUE" ∨ s = "true" ∨ s = "True" then (true, true)
  else if s = "0" ∨ s = "f" ∨ s = "F" ∨ s = "FALSE" ∨ s = "false" ∨ s = "False" then
    (false, true)
  else (false, false)

/-- Digit value of a character under the strconv.ParseUint conventions:
0-9, then case-insensitive letters starting at value 10. -/
def digitVal (c : Char) : Option Nat :=
  if '0' ≤ c ∧ c ≤ '9' then some (c.toNat - 48)
  else if 'a' ≤ lowerChar c ∧ lowerChar c ≤ 'z' then some ((lowerChar c).toNat - 87)
  else none

/-- Numeric value of a decimal digit character. -/
def dval (c : Char) : Nat := c.toNat - 48

/-- Value of a digit string read left to right on top of accumulator a. -/
def evalD (a : Nat) (cs : List Char) : Nat :=
  cs.foldl (fun x c => x * 10 + dval c) a

/-- Digit-accumulation loop of strconv.ParseUint for the base-0 call sites:
underscores are tolerated here and validated afterwards by underscoreOK.
Returns the accumulated value together with the underscores-seen flag;
none models an invalid digit or an overflow past maxVal. -/
def digitsLoop (base maxVal : Nat) : List Char → Nat → Bool → Option (Nat × Bool)
  | [], n, us => some (n, us)
  | c :: rest, n, us =>
    if c = '_' then digitsLoop base maxVal rest n true
    else
      match digitVal c with
      | none => none
      | some d =>
        if base ≤ d then none
        else if maxVal / base + 1 ≤ n then none
        else if maxVal < n * base + d then none
        else digitsLoop base maxVal rest (n * base + d) us

/-- Character-class loop of strconv underscoreOK; saw is the class of the
previous character (caret for start, 0 for digit or base prefix,
underscore, or bang for anything else). -/
def usLoop (hex : Bool) : List Char → Char → Bool
  | [], saw => saw ≠ '_'
  | c :: rest, saw =>
    if ('0' ≤ c ∧ c ≤ '9') ∨ (hex ∧ 'a' ≤ lowerChar c ∧ lowerChar c ≤ 'f') then
      usLoop hex rest '0'
    else if c = '_' then (if saw = '0' then usLoop hex rest '_' else false)
    else if saw = '_' then false
    else usLoop hex rest '!'

/-- Go strconv underscoreOK: underscores may appear only between digits or
between a base prefix and a digit. -/
def underscoreOK (s : List Char) : Bool :=
  let s1 := match s with
    | c :: rest => if c = '-' ∨ c = '+' then rest else c :: rest
    | [] => []
  match s1 with
  | c0 :: c1 :: rest =>
    if c0 = '0' ∧ (lowerChar c1 = 'b' ∨ lowerChar c1 = 'o' ∨ lowerChar c1 = 'x') then
      usLoop (lowerChar c1 = 'x') rest '0'
    else usLoop false s1 '^'
  | _ => usLoop false s1 '^'

/-- Go strconv.ParseUint with base 0, as invoked by ParseInt: detect the
base prefix, run the digit loop, then validate underscore placement.
none models any error (the package collapses them all into ErrParse and
never uses the clamped value Go returns with a range error). -/
def goParseUintB0 (s : List Char) (bitSize : Nat) : Option Nat :=
  match s with
  | [] => none
  | c0 :: rest0 =>
    let maxVal := 2 ^ bitSize - 1
    let bs : Nat × List Char :=
      if c0 = '0' then
        match rest0 with
        | c1 :: rest1 =>
          if 3 ≤ s.length ∧ lowerChar c1 = 'b' then (2, rest1)
          else if 3 ≤ s.length ∧ lowerChar c1 = 'o' then (8, rest1)
          else if 3 ≤ s.length ∧ lowerChar c1 = 'x' then (16, rest1)
          else (8, c1 :: rest1)
        | [] => (8, [])
      else (10, c0 :: rest0)
    match digitsLoop bs.1 maxVal bs.2 0 false with
    | none => none
    | some nus => if nus.2 ∧ ¬ underscoreOK s then none else some nus.1

/-- Go strconv.ParseInt(s, 0, bitSize): strip the sign, parse unsigned,
then apply the signed range check. none models both syntax and range
errors, which every call site in the package maps to ErrParse. -/
def goParseInt (str : String) (bitSize : Nat) : Option Int :=
  match str.data with
  | [] => none
  | c :: rest =>
    let ns : Bool × List Char :=
      if c = '+' then (false, rest)
      else if c = '-' then (true, rest)
      else (false, c :: rest)
    match goParseUintB0 ns.2 64 with
    | none => none
    | some un =>
      let cutoff : Nat := 2 ^ (bitSize - 1)
      if ns.1 = false ∧ cutoff ≤ un then none
      else if ns.1 = true ∧ cutoff < un then none
      else some (if ns.1 then -(un : Int) else (un : Int))

/-- Go strings.ToLower, restricted to its ASCII action (every input the
package and its tests exercise is ASCII). -/
def goToLower (s : String) : String := String.mk (s.data.map lowerChar)

/-- Decimal digit test used by the float syntax. -/
def isDigitB (c : Char) : Bool := decide ('0' ≤ c ∧ c ≤ '9')

/-- Left-pad a digit list with zeros to length k. -/
def padZeros (k : Nat) (l : List Char) : List Char :=
  List.replicate (k - l.length) '0' ++ l

/-- Core of the decimal form of Go strconv.ParseFloat, after the sign:
integer digits, optional fraction, optional decimal exponent, at least
one mantissa digit and nothing left over. Hex floats and the
digit-separating underscores of the Go syntax are not modelled (nothing
in this development exercises them); the result is the exact decimal the
text denotes, as a signed mantissa and a power-of-ten denominator. -/
def parseDecCore (neg : Bool) (l : List Char) : Option (Int × Nat) :=
  let ip := l.takeWhile isDigitB
  let r2 := l.dropWhile isDigitB
  let fpr : List Char × List Char :=
    match r2 with
    | '.' :: r => (r.takeWhile isDigitB, r.dropWhile isDigitB)
    | _ => ([], r2)
  if ip = [] ∧ fpr.1 = [] then none
  else
    let mant : Nat := evalD 0 ip * 10 ^ fpr.1.length + evalD 0 fpr.1
    let sm : Int := if neg then -(mant : Int) else (mant : Int)
    match fpr.2 with
    | [] => some (sm, fpr.1.length)
    | e :: r4 =>
      if e = 'e' ∨ e = 'E' then
        let es : Bool × List Char :=
          match r4 with
          | c :: r5 =>
            if c = '+' then (false, r5)
            else if c = '-' then (true, r5)
            else (false, c :: r5)
          | [] => (false, [])
        let ed := es.2.takeWhile isDigitB
        let er := es.2.dropWhile isDigitB
        if ed = [] ∨ ¬ er = [] then none
        else
          let ev := evalD 0 ed
          if es.1 then some (sm, fpr.1.length + ev)
          else if fpr.1.length ≤ ev then some (sm * 10 ^ (ev - fpr.1.length), 0)
          else some (sm, fpr.1.length - ev)
      else none

/-- Sign handling of the decimal form of strconv.ParseFloat. -/
def goParseDec (s : String) : Option (Int × Nat) :=
  match s.data with
  | [] => none
  | c :: rest =>
    let ns : Bool × List Char :=
      if c = '+' then (false, rest)
      else if c = '-' then (true, rest)
      else (false, c :: rest)
    parseDecCore ns.1 ns.2

/-- Go strconv.ParseFloat (for either bit width; the float32 narrowing is
absorbed by the GoFloat abstraction): the case-insensitive special forms
Go documents, then the decimal syntax. none models the parse error every
call site maps to ErrParse. -/
def goParseFloat (s : String) : Option GoFloat :=
  let ls := goToLower s
  if ls = "nan" then some .nan
  else if ls = "inf" ∨ ls = "+inf" ∨ ls = "infinity" ∨ ls = "+infinity" then
    some (.inf false)
  else if ls = "-inf" ∨ ls = "-infinity" then some (.inf true)
  else
    match goParseDec s with
    | some np => some (.finite np.1 np.2)
    | none => none

/-- Go strconv.FormatFloat on the GoFloat model: the special values render
as Go documents; a finite value renders its exact decimal, printing the
representation digit for digit (Go prints the shortest digits denoting
the same value; the difference is only trailing zeros, which ParseFloat
absorbs). -/
def goFormatFloat : GoFloat → String
  | .nan => "NaN"
  | .inf true => "-Inf"
  | .inf false => "+Inf"
  | .finite n p =>
    if p = 0 then goFormatInt n
    else
      String.mk ((if n < 0 then ['-'] else []) ++ toDec (n.natAbs / 10 ^ p)
        ++ '.' :: padZeros p (toDec (n.natAbs % 10 ^ p)))

/-- Go fmt.Sprint on the dynamic values Value.Get produces. -/
def goSprint : GoAny → String
  | .aBool b => goFormatBool b
  | .aString s => s
  | .aInt i => goFormatInt i
  | .aFloat x => goFormatFloat x

/-- State of one Value wrapper. The basic wrappers alias the caller variable
directly; the range wrappers keep both their val field and the pointed-to
caller variable (ptr), which their Set updates together. -/
inductive GoVal where
  | vBool (b : Bool)
  | vString (s : String)
  | vInt32 (i : Int)
  | vInt64 (i : Int)
  | vStringRange (ptr val : String) (caseSensitive : Bool) (allowed : List String)
  | vInt32Range (ptr val lo hi : Int)
  | vInt64Range (ptr val lo hi : Int)
  | vFloat32 (x : GoFloat)
  | vFloat64 (x : GoFloat)
  | vFloat32Range (ptr val lo hi : GoFloat)
  | vFloat64Range (ptr val lo hi : GoFloat)
deriving DecidableEq

/-- Value.Set of each wrapper: new state plus error. Mirrors boolValue.Set
(which stores the zero result even on failure), stringValue.Set,
int32Value.Set, int64Value.Set, stringRangeValue.Set, int32RangeValue.Set,
int64RangeValue.Set, float32Value.Set, float64Value.Set,
float32RangeValue.Set and float64RangeValue.Set; the float range bound
test is the IEEE v greater-than max or v less-than min the source writes,
both comparisons false for NaN. -/
def GoVal.set : GoVal → String → GoVal × Option GoErr
  | vBool _, s =>
    let vb := goParseBool s
    (vBool vb.1, if vb.2 then none else some .errParse)
  | vString _, s => (vString s, none)
  | vInt32 i, s =>
    match goParseInt s 32 with
    | none => (vInt32 i, some .errParse)
    | some v => (vInt32 v, none)
  | vInt64 i, s =>
    match goParseInt s 64 with
    | none => (vInt64 i, some .errParse)
    | some v => (vInt64 v, none)
  | vStringRange ptr val cs allowed, s =>
    let str := if cs then s else goToLower s
    if allowed.contains str then (vStringRange str str cs allowed, none)
    else (vStringRange ptr val cs allowed, some .errRange)
  | vInt32Range ptr val lo hi, s =>
    match goParseInt s 32 with
    | none => (vInt32Range ptr val lo hi, some .errParse)
    | some v =>
      if hi < v ∨ v < lo then (vInt32Range ptr val lo hi, some .errRange)
      else (vInt32Range v v lo hi, none)
  | vInt64Range ptr val lo hi, s =>
    match goParseInt s 64 with
    | none => (vInt64Range ptr val lo hi, some .errParse)
    | some v =>
      if hi < v ∨ v < lo then (vInt64Range ptr val lo hi, some .errRange)
      else (vInt64Range v v lo hi, none)
  | vFloat32 x, s =>
    match goParseFloat s with
    | none => (vFloat32 x, some .errParse)
    | some v => (vFloat32 v, none)
  | vFloat64 x, s =>
    match goParseFloat s with
    | none => (vFloat64 x, some .errParse)
    | some v => (vFloat64 v, none)
  | vFloat32Range ptr val lo hi, s =>
    match goParseFloat s with
    | none => (vFloat32Range ptr val lo hi, some .errParse)
    | some v =>
      if GoFloat.flt hi v || GoFloat.flt v lo then (vFloat32Range ptr val lo hi, some .errRange)
      else (vFloat32Range v v lo hi, none)
  | vFloat64Range ptr val lo hi, s =>
    match goParseFloat s with
    | none => (vFloat64Range ptr val lo hi, some .errParse)
    | some v =>
      if GoFloat.flt hi v || GoFloat.flt v lo then (vFloat64Range ptr val lo hi, some .errRange)
      else (vFloat64Range v v lo hi, none)

/-- Value.Get of each wrapper. -/
def GoVal.get : GoVal → GoAny
  | vBool b => .aBool b
  | vString s => .aString s
  | vInt32 i => .aInt i
  | vInt64 i => .aInt i
  | vStringRange _ val _ _ => .aString val
  | vInt32Range _ val _ _ => .aInt val
  | vInt64Range _ val _ _ => .aInt val
  | vFloat32 x => .aFloat x
  | vFloat64 x => .aFloat x
  | vFloat32Range _ val _ _ => .aFloat val
  | vFloat64Range _ val _ _ => .aFloat val

/-- Value.String of each wrapper. -/
def GoVal.str : GoVal → String
  | vBool b => goFormatBool b
  | vString s => s
  | vInt32 i => goFormatInt i
  | vInt64 i => goFormatInt i
  | vStringRange _ val _ _ => val
  | vInt32Range _ val _ _ => goFormatInt val
  | vInt64Range _ val _ _ => goFormatInt val
  | vFloat32 x => goFormatFloat x
  | vFloat64 x => goFormatFloat x
  | vFloat32Range _ val _ _ => goFormatFloat val
  | vFloat64Range _ val _ _ => goFormatFloat val

/-- Value.String evaluated on a freshly zero-constructed wrapper of the
same concrete type, as Option.IsZeroValue builds through reflection. -/
def GoVal.zeroStr : GoVal → String
  | vBool _ => goFormatBool false
  | vString _ => ""
  | vInt32 _ => goFormatInt 0
  | vInt64 _ => goFormatInt 0
  | vStringRange _ _ _ _ => ""
  | vInt32Range _ _ _ _ => goFormatInt 0
  | vInt64Range _ _ _ _ => goFormatInt 0
  | vFloat32 _ => goFormatFloat (.finite 0 0)
  | vFloat64 _ => goFormatFloat (.finite 0 0)
  | vFloat32Range _ _ _ _ => goFormatFloat (.finite 0 0)
  | vFloat64Range _ _ _ _ => goFormatFloat (.finite 0 0)

/-- Fold a sequence of Set calls over one wrapper, keeping the final state. -/
def GoVal.setSeq (v : GoVal) (ss : List String) : GoVal :=
  ss.foldl (fun w s => (w.set s).1) v

/-- An Option: file name, default captured as value.String() at
registration, and the (shared, mutable) Value. -/
structure GoOption where
  name : String
  defValue : String
  value : GoVal
deriving DecidableEq

/-- A ConfigSet. formal lists every registered option (the Go map, with
unique names when built through Var); actual is the set of names that
received a successful explicit assignment, whose map entries in Go alias
the formal ones and are therefore represented by the names alone. -/
structure ConfigSet where
  formal : List GoOption := []
  actual : List String := []
deriving DecidableEq

/-- ConfigSet.Lookup (also the formal-map read used inside Set and Var). -/
def ConfigSet.Lookup (c : ConfigSet) (n : String) : Option GoOption :=
  c.formal.find? (fun o => o.name == n)

/-- Overwrite the stored Value state of the option named n; every alias of
the option (formal, actual, visit snapshots) sees the update. -/
def ConfigSet.updFormal (c : ConfigSet) (n : String) (v : GoVal) : ConfigSet :=
  { c with formal := c.formal.map (fun o => if o.name == n then { o with value := v } else o) }

/-- ConfigSet.Set: look the name up in formal, run Value.Set (whose state
change happens even when it reports an error), and record the option into
actual only on success. -/
def ConfigSet.set (c : ConfigSet) (name value : String) : ConfigSet × Option GoErr :=
  match c.Lookup name with
  | none => (c, some (.errNoSuchOption name))
  | some opt =>
    let r := opt.value.set value
    let c1 := c.updFormal name r.1
    match r.2 with
    | some e => (c1, some e)
    | none =>
      ({ c1 with actual := if name ∈ c1.actual then c1.actual else c1.actual ++ [name] }, none)

/-- ConfigSet.Var: register value under name, capturing value.String() as
the default text; fails without touching formal if the name exists. -/
def ConfigSet.Var (c : ConfigSet) (value : GoVal) (name : String) : ConfigSet × Option GoErr :=
  let opt : GoOption := ⟨name, value.str, value⟩
  if (c.Lookup name).isSome then (c, some (.errOptionRedefined name))
  else ({ c with formal := c.formal ++ [opt] }, none)

/-- ConfigSet.IsZeroValue: consults only the actual map; for a set option
it compares Value.String() with the zero-instance String() (the
Option.IsZeroValue reflection path). The inner none branch is unreachable
whenever actual names are a subset of formal names. -/
def ConfigSet.IsZeroValue (c : ConfigSet) (n : String) : Except GoErr Bool :=
  if n ∈ c.actual then
    match c.Lookup n with
    | some o => .ok (o.value.str == o.value.zeroStr)
    | none => .ok false
  else .error (.errNoSuchActualOption n)

/-- Lexicographic (byte-wise, equivalently code-point-wise) comparison of
character lists: the order strings.Compare induces. -/
def strLeListb : List Char → List Char → Bool
  | [], _ => true
  | _ :: _, [] => false
  | c :: cs, d :: ds =>
    if c.toNat < d.toNat then true
    else if d.toNat < c.toNat then false
    else strLeListb cs ds

/-- strings.Compare at-most order on strings. -/
def strLeb (a b : String) : Bool := strLeListb a.data b.data

/-- ConfigSet.sortOptions: the given options sorted lexicographically by
name (slices.SortFunc with strings.Compare). -/
def sortOptions (opts : List GoOption) : List GoOption :=
  opts.insertionSort (fun a b => strLeb a.name b.name = true)

/-- The option sequence ConfigSet.VisitAll applies its callback to. -/
def ConfigSet.visitAllList (c : ConfigSet) : List GoOption := sortOptions c.formal

/-- The option sequence ConfigSet.Visit applies its callback to (the
actual map holds the shared formal entries). -/
def ConfigSet.visitList (c : ConfigSet) : List GoOption :=
  sortOptions (c.formal.filter (fun o => c.actual.contains o.name))

/-- Lookup in the decoded document (the flat string-keyed map a successful
Unmarshaller call produces; the concrete decoders are external). -/
def docFind (d : List (String × GoAny)) (n : String) : Option GoAny :=
  (d.find? (fun p => p.1 == n)).map (fun p => p.2)

/-- One iteration of the VisitAll closure inside ConfigSet.ParseFromData,
for the option named n: skip already-actual names, otherwise stringify the
document value and Set it; a failure replaces the retained error and the
pass continues, a success commits the name into actual. -/
def parseStep (d : List (String × GoAny)) (acc : ConfigSet × Option GoErr) (n : String) :
    ConfigSet × Option GoErr :=
  let c := acc.1
  if n ∈ c.actual then acc
  else
    match docFind d n with
    | none => acc
    | some v =>
      match c.Lookup n with
      | none => acc
      | some o =>
        let r := o.value.set (goSprint v)
        let c1 := c.updFormal n r.1
        match r.2 with
        | some e => (c1, some e)
        | none => ({ c1 with actual := c1.actual ++ [n] }, acc.2)

/-- ConfigSet.ParseFromData after a successful decode of the input bytes
into the flat document d: visit every formal option in lexicographic
order and fold parseStep over the names, starting with no error. -/
def ConfigSet.parseFromData (c : ConfigSet) (d : List (String × GoAny)) :
    ConfigSet × Option GoErr :=
  ((c.visitAllList).map GoOption.name).foldl (parseStep d) (c, none)

/-- ConfigSet.SaveTo up to the external Marshaller: the flat map handed to
the encoder, one entry per formal option with its current Get value,
built in VisitAll order. -/
def ConfigSet.saveToDoc (c : ConfigSet) : List (String × GoAny) :=
  (c.visitAllList).map (fun o => (o.name, o.value.get))

/-- Write the caller variable field of a string range wrapper (the final
star-p assignment in StringRangeVarSet). -/
def GoVal.setPtrStr : GoVal → String → GoVal
  | vStringRange _ val cs allowed, p => vStringRange p val cs allowed
  | v, _ => v

/-- Write the caller variable field of a numeric range wrapper (the final
star-p assignment in Int32RangeVarSet and Int64RangeVarSet). -/
def GoVal.setPtrInt : GoVal → Int → GoVal
  | vInt32Range _ val lo hi, p => vInt32Range p val lo hi
  | vInt64Range _ val lo hi, p => vInt64Range p val lo hi
  | v, _ => v

/-- Write the caller variable field of a float range wrapper (the final
star-p assignment in Float32RangeVarSet and Float64RangeVarSet). -/
def GoVal.setPtrFloat : GoVal → GoFloat → GoVal
  | vFloat32Range _ val lo hi, p => vFloat32Range p val lo hi
  | vFloat64Range _ val lo hi, p => vFloat64Range p val lo hi
  | v, _ => v

/-- newStringRangeVal: pval is the current contents of the caller variable
p; in case-insensitive mode the allowed set is lowercased up front. -/
def newStringRangeVal (pval : String) (caseSensitive : Bool) (allowed : List String) : GoVal :=
  if caseSensitive then .vStringRange pval pval caseSensitive allowed
  else .vStringRange pval pval caseSensitive (allowed.map goToLower)

/-- StringRangeVarSet: build the wrapper, validate the default through Set,
restore the caller variable to the default as given, then register. -/
def StringRangeVarSet (c : ConfigSet) (pval key defaultValue : String)
    (caseSensitive : Bool) (allowed : List String) : ConfigSet × Option GoErr :=
  let v0 := newStringRangeVal pval caseSensitive allowed
  let r := v0.set defaultValue
  match r.2 with
  | some e => (c, some e)
  | none => c.Var (r.1.setPtrStr defaultValue) key

/-- StringRangeSet: StringRangeVarSet on a fresh (zero) string variable. -/
def StringRangeSet (c : ConfigSet) (key defaultValue : String)
    (caseSensitive : Bool) (allowed : List String) : ConfigSet × Option GoErr :=
  StringRangeVarSet c "" key defaultValue caseSensitive allowed

/-- newInt32RangeValue: the val field starts at the Go zero value 0; p0 is
the current contents of the caller variable. -/
def newInt32RangeValue (p0 lo hi : Int) : GoVal := .vInt32Range p0 0 lo hi

/-- Int32RangeVarSet: build the wrapper, validate the formatted default
through Set, restore the caller variable, then register. -/
def Int32RangeVarSet (c : ConfigSet) (p0 : Int) (key : String)
    (defaultValue lo hi : Int) : ConfigSet × Option GoErr :=
  let v0 := newInt32RangeValue p0 lo hi
  let r := v0.set (goFormatInt defaultValue)
  match r.2 with
  | some e => (c, some e)
  | none => c.Var (r.1.setPtrInt defaultValue) key

/-- Int32RangeSet: Int32RangeVarSet on a fresh (zero) variable. -/
def Int32RangeSet (c : ConfigSet) (key : String) (defaultValue lo hi : Int) :
    ConfigSet × Option GoErr :=
  Int32RangeVarSet c 0 key defaultValue lo hi

/-- newInt64RangeValue, as newInt32RangeValue. -/
def newInt64RangeValue (p0 lo hi : Int) : GoVal := .vInt64Range p0 0 lo hi

/-- Int64RangeVarSet, structured exactly like Int32RangeVarSet. -/
def Int64RangeVarSet (c : ConfigSet) (p0 : Int) (key : String)
    (defaultValue lo hi : Int) : ConfigSet × Option GoErr :=
  let v0 := newInt64RangeValue p0 lo hi
  let r := v0.set (goFormatInt defaultValue)
  match r.2 with
  | some e => (c, some e)
  | none => c.Var (r.1.setPtrInt defaultValue) key

/-- Int64RangeSet: Int64RangeVarSet on a fresh (zero) variable. -/
def Int64RangeSet (c : ConfigSet) (key : String) (defaultValue lo hi : Int) :
    ConfigSet × Option GoErr :=
  Int64RangeVarSet c 0 key defaultValue lo hi

/-- newFloat32RangeValue: the val field starts at the Go zero value 0; p0
is the current contents of the caller variable. -/
def newFloat32RangeValue (p0 lo hi : GoFloat) : GoVal := .vFloat32Range p0 (.finite 0 0) lo hi

/-- Float32RangeVarSet: build the wrapper, validate the formatted default
through Set, restore the caller variable, then register. -/
def Float32RangeVarSet (c : ConfigSet) (p0 : GoFloat) (key : String)
    (defaultValue lo hi : GoFloat) : ConfigSet × Option GoErr :=
  let v0 := newFloat32RangeValue p0 lo hi
  let r := v0.set (goFormatFloat defaultValue)
  match r.2 with
  | some e => (c, some e)
  | none => c.Var (r.1.setPtrFloat defaultValue) key

/-- Float32RangeSet: Float32RangeVarSet on a fresh (zero) variable. -/
def Float32RangeSet (c : ConfigSet) (key : String) (defaultValue lo hi : GoFloat) :
    ConfigSet × Option GoErr :=
  Float32RangeVarSet c (.finite 0 0) key defaultValue lo hi

/-- newFloat64RangeValue, as newFloat32RangeValue. -/
def newFloat64RangeValue (p0 lo hi : GoFloat) : GoVal := .vFloat64Range p0 (.finite 0 0) lo hi

/-- Float64RangeVarSet, structured exactly like Float32RangeVarSet. -/
def Float64RangeVarSet (c : ConfigSet) (p0 : GoFloat) (key : String)
    (defaultValue lo hi : GoFloat) : ConfigSet × Option GoErr :=
  let v0 := newFloat64RangeValue p0 lo hi
  let r := v0.set (goFormatFloat defaultValue)
  match r.2 with
  | some e => (c, some e)
  | none => c.Var (r.1.setPtrFloat defaultValue) key

/-- Float64RangeSet: Float64RangeVarSet on a fresh (zero) variable. -/
def Float64RangeSet (c : ConfigSet) (key : String) (defaultValue lo hi : GoFloat) :
    ConfigSet × Option GoErr :=
  Float64RangeVarSet c (.finite 0 0) key defaultValue lo hi

/-- AddOptionToSet at a bool option: the factory writes the default into
fresh storage and wraps it (the registry lookup for primitives succeeds). -/
def addBoolOption (c : ConfigSet) (key : String) (d : Bool) : ConfigSet × Option GoErr :=
  c.Var (.vBool d) key

/-- AddOptionToSet at a string option. -/
def addStringOption (c : ConfigSet) (key : String) (d : String) : ConfigSet × Option GoErr :=
  c.Var (.vString d) key

/-- AddOptionToSet at an int64 option. -/
def addInt64Option (c : ConfigSet) (key : String) (d : Int) : ConfigSet × Option GoErr :=
  c.Var (.vInt64 d) key

/-- float64Value.Set and float32Value.Set with the external
strconv.ParseFloat call abstracted into fl (for float32 the narrowing
conversion is folded into fl as well): the body is the literal control
flow of both functions, returning ErrParse before any store on failure. -/
def floatSetG {Q : Type} (fl : String → Option Q) (cur : Q) (s : String) : Q × Option GoErr :=
  match fl s with
  | none => (cur, some .errParse)
  | some v => (v, none)

/-- Value states producible by a successful Set call of the same wrapper
(what an explicitly set option can hold). -/
def GoVal.wfb : GoVal → Bool
  | .vBool _ => true
  | .vString _ => true
  | .vInt32 i => decide (-(2 ^ 31) ≤ i ∧ i < 2 ^ 31)
  | .vInt64 i => decide (-(2 ^ 63) ≤ i ∧ i < 2 ^ 63)
  | .vStringRange _ val cs allowed => allowed.contains val && (cs || goToLower val == val)
  | .vInt32Range _ val lo hi => decide (lo ≤ val ∧ val ≤ hi ∧ -(2 ^ 31) ≤ val ∧ val < 2 ^ 31)
  | .vInt64Range _ val lo hi => decide (lo ≤ val ∧ val ≤ hi ∧ -(2 ^ 63) ≤ val ∧ val < 2 ^ 63)
  | .vFloat32 _ => true
  | .vFloat64 _ => true
  | .vFloat32Range _ val lo hi => !(GoFloat.flt hi val || GoFloat.flt val lo)
  | .vFloat64Range _ val lo hi => !(GoFloat.flt hi val || GoFloat.flt val lo)

/-- Identically-shaped wrappers: same constructor and same
registration-time parameters; the current value may differ. -/
def GoVal.shapeb : GoVal → GoVal → Bool
  | .vBool _, .vBool _ => true
  | .vString _, .vString _ => true
  | .vInt32 _, .vInt32 _ => true
  | .vInt64 _, .vInt64 _ => true
  | .vStringRange _ _ cs1 a1, .vStringRange _ _ cs2 a2 => cs1 == cs2 && a1 == a2
  | .vInt32Range _ _ lo1 hi1, .vInt32Range _ _ lo2 hi2 => lo1 == lo2 && hi1 == hi2
  | .vInt64Range _ _ lo1 hi1, .vInt64Range _ _ lo2 hi2 => lo1 == lo2 && hi1 == hi2
  | .vFloat32 _, .vFloat32 _ => true
  | .vFloat64 _, .vFloat64 _ => true
  | .vFloat32Range _ _ lo1 hi1, .vFloat32Range _ _ lo2 hi2 => lo1 == lo2 && hi1 == hi2
  | .vFloat64Range _ _ lo1 hi1, .vFloat64Range _ _ lo2 hi2 => lo1 == lo2 && hi1 == hi2
  | _, _ => false

/-- Current Get value of the named option. -/
def ConfigSet.getOf (c : ConfigSet) (n : String) : Option GoAny :=
  (c.Lookup n).map (fun o => o.value.get)

/-- Specification-side trace variant of the ParseFromData visiting pass:
identical per-option processing, but every per-key failure is collected in
visit order instead of one being retained. Models the spec wording that
the pass attempts all remaining options and reports the most recent
failure. -/
def parseTraceStep (d : List (String × GoAny)) (acc : ConfigSet × List GoErr) (n : String) :
    ConfigSet × List GoErr :=
  let c := acc.1
  if n ∈ c.actual then acc
  else
    match docFind d n with
    | none => acc
    | some v =>
      match c.Lookup n with
      | none => acc
      | some o =>
        let r := o.value.set (goSprint v)
        let c1 := c.updFormal n r.1
        match r.2 with
        | some e => (c1, acc.2 ++ [e])
        | none => ({ c1 with actual := c1.actual ++ [n] }, acc.2)

/-- Trace form of ConfigSet.ParseFromData (specification-side). -/
def ConfigSet.parseTrace (c : ConfigSet) (d : List (String × GoAny)) :
    ConfigSet × List GoErr :=
  ((c.visitAllList).map GoOption.name).foldl (parseTraceStep d) (c, [])

/-- Pointwise identically-shaped formal option lists: same names in the
same registration order, shape-matching wrappers. -/
def sameShapeb : List GoOption → List GoOption → Bool
  | [], [] => true
  | o1 :: l1, o2 :: l2 => o1.name == o2.name && o1.value.shapeb o2.value && sameShapeb l1 l2
  | _, _ => false

/-- Every explicitly set option of c holds a Set-reachable value. -/
def wfActualb (c : ConfigSet) : Bool :=
  c.actual.all fun n =>
    match c.Lookup n with
    | some o => o.value.wfb
    | none => false



/-! Theorems. First the character and decimal-digit toolbox used to relate
goFormatInt with goParseInt. -/

theorem char_le_iff {a b : Char} : a ≤ b ↔ a.toNat ≤ b.toNat := by
  rw [Char.le_def, UInt32.le_def, BitVec.le_def]
  rfl

theorem digitCh_bounds (d : Nat) (h : d ≤ 9) : '0' ≤ digitCh d ∧ digitCh d ≤ '9' := by
  interval_cases d <;> exact ⟨by decide, by decide⟩

theorem digitCh_ne_zeroCh (d : Nat) (h1 : 1 ≤ d) (h2 : d ≤ 9) : ¬ digitCh d = '0' := by
  interval_cases d <;> decide

theorem dval_digitCh (d : Nat) (h : d ≤ 9) : dval (digitCh d) = d := by
  interval_cases d <;> decide

theorem digit_dval_le (c : Char) (h : c ≤ '9') : dval c ≤ 9 := by
  have h2 := char_le_iff.mp h
  have h9 : ('9' : Char).toNat = 57 := by decide
  simp only [dval]
  omega

theorem digit_ne_us (c : Char) (h : c ≤ '9') : ¬ c = '_' := by
  intro he
  subst he
  exact absurd (char_le_iff.mp h) (by decide)

theorem digitVal_digit (c : Char) (h1 : '0' ≤ c) (h2 : c ≤ '9') :
    digitVal c = some (dval c) := by
  simp [digitVal, h1, h2, dval]

theorem toDecGo_fuel (n : Nat) :
    ∀ f1 f2 acc, n < f1 → n < f2 → toDecGo f1 n acc = toDecGo f2 n acc := by
  induction n using Nat.strong_induction_on with
  | _ n ih =>
    intro f1 f2 acc h1 h2
    match f1, f2 with
    | g1 + 1, g2 + 1 =>
      by_cases h : n < 10
      · simp [toDecGo, h]
      · simp only [toDecGo, if_neg h]
        exact ih (n / 10) (by omega) g1 g2 _ (by omega) (by omega)

theorem toDecGo_acc (n : Nat) :
    ∀ f acc, n < f → toDecGo f n acc = toDecGo f n [] ++ acc := by
  induction n using Nat.strong_induction_on with
  | _ n ih =>
    intro f acc hf
    match f with
    | g + 1 =>
      by_cases h : n < 10
      · simp [toDecGo, h]
      · simp only [toDecGo, if_neg h]
        rw [ih (n / 10) (by omega) g _ (by omega),
          ih (n / 10) (by omega) g [digitCh (n % 10)] (by omega)]
        simp

theorem toDec_small (n : Nat) (h : n < 10) : toDec n = [digitCh n] := by
  simp [toDec, toDecGo, h]

theorem toDec_step (n : Nat) (h : 10 ≤ n) :
    toDec n = toDec (n / 10) ++ [digitCh (n % 10)] := by
  have h2 : ¬ n < 10 := by omega
  show toDecGo (n + 1) n [] = _
  simp only [toDecGo, if_neg h2]
  rw [toDecGo_acc (n / 10) n [digitCh (n % 10)] (by omega),
    toDecGo_fuel (n / 10) n (n / 10 + 1) [] (by omega) (by omega)]
  rfl

theorem toDec_digits (n : Nat) : ∀ c ∈ toDec n, '0' ≤ c ∧ c ≤ '9' := by
  induction n using Nat.strong_induction_on with
  | _ n ih =>
    by_cases h : n < 10
    · rw [toDec_small n h]
      intro c hc
      have : c = digitCh n := by simpa using hc
      subst this
      exact digitCh_bounds n (by omega)
    · rw [toDec_step n (by omega)]
      intro c hc
      rcases List.mem_append.mp hc with h1 | h1
      · exact ih (n / 10) (by omega) c h1
      · have : c = digitCh (n % 10) := by simpa using h1
        subst this
        exact digitCh_bounds (n % 10) (by omega)

theorem toDec_head (n : Nat) :
    1 ≤ n → ∃ d rest, toDec n = digitCh d :: rest ∧ 1 ≤ d ∧ d ≤ 9 := by
  induction n using Nat.strong_induction_on with
  | _ n ih =>
    intro hn
    by_cases h : n < 10
    · exact ⟨n, [], by rw [toDec_small n h], hn, by omega⟩
    · obtain ⟨d, rest, he, h1, h9⟩ := ih (n / 10) (by omega) (by omega)
      exact ⟨d, rest ++ [digitCh (n % 10)], by rw [toDec_step n (by omega), he]; rfl, h1, h9⟩

theorem evalD_nil (a : Nat) : evalD a [] = a := rfl

theorem evalD_cons (a : Nat) (c : Char) (cs : List Char) :
    evalD a (c :: cs) = evalD (a * 10 + dval c) cs := rfl

theorem evalD_append (a : Nat) (l1 l2 : List Char) :
    evalD a (l1 ++ l2) = evalD (evalD a l1) l2 := by
  simp [evalD, List.foldl_append]

theorem evalD_ge (cs : List Char) : ∀ a, a ≤ evalD a cs := by
  induction cs with
  | nil => intro a; simp [evalD]
  | cons c cs ih =>
    intro a
    rw [evalD_cons]
    calc a ≤ a * 10 + dval c := by omega
    _ ≤ evalD (a * 10 + dval c) cs := ih _

theorem evalD_toDec (n : Nat) : evalD 0 (toDec n) = n := by
  induction n using Nat.strong_induction_on with
  | _ n ih =>
    by_cases h : n < 10
    · rw [toDec_small n h, evalD_cons, evalD_nil, dval_digitCh n (by omega)]
      omega
    · rw [toDec_step n (by omega), evalD_append, ih (n / 10) (by omega),
        evalD_cons, evalD_nil, dval_digitCh (n % 10) (by omega)]
      omega

theorem digitsLoop_digits (maxVal : Nat) (cs : List Char) :
    ∀ a us, (∀ c ∈ cs, '0' ≤ c ∧ c ≤ '9') → evalD a cs ≤ maxVal →
      digitsLoop 10 maxVal cs a us = some (evalD a cs, us) := by
  induction cs with
  | nil =>
    intro a us _ _
    simp [digitsLoop, evalD]
  | cons c cs ih =>
    intro a us hd hv
    have hc := hd c (List.mem_cons_self _ _)
    have hd9 : dval c ≤ 9 := digit_dval_le c hc.2
    rw [evalD_cons] at hv
    have hub : a * 10 + dval c ≤ maxVal := le_trans (evalD_ge cs _) hv
    have hcut : ¬ maxVal / 10 + 1 ≤ a := by
      have : a ≤ maxVal / 10 := Nat.le_div_iff_mul_le (by omega) |>.mpr (by omega)
      omega
    rw [digitsLoop, if_neg (digit_ne_us c hc.2), digitVal_digit c hc.1 hc.2]
    simp only [if_neg (by omega : ¬ 10 ≤ dval c), if_neg hcut,
      if_neg (by omega : ¬ maxVal < a * 10 + dval c)]
    rw [ih (a * 10 + dval c) us (fun x hx => hd x (List.mem_cons_of_mem _ hx)) hv, evalD_cons]

theorem goParseUintB0_toDec (n bitSize : Nat) (h : n ≤ 2 ^ bitSize - 1) :
    goParseUintB0 (toDec n) bitSize = some n := by
  by_cases h0 : n = 0
  · subst h0
    rfl
  · have hd := toDec_digits n
    obtain ⟨d, rest, he, hd1, hd9⟩ := toDec_head n (by omega)
    rw [he]
    rw [he] at hd
    have hne : ¬ digitCh d = '0' := digitCh_ne_zeroCh d hd1 hd9
    simp only [goParseUintB0, if_neg hne]
    have : digitsLoop 10 (2 ^ bitSize - 1) (digitCh d :: rest) 0 false
        = some (evalD 0 (digitCh d :: rest), false) := by
      apply digitsLoop_digits
      · exact hd
      · rw [← he, evalD_toDec]; exact h
    rw [this, ← he, evalD_toDec]
    simp

theorem digit_ne_plus (c : Char) (h : '0' ≤ c) : ¬ c = '+' := by
  intro he
  subst he
  exact absurd (char_le_iff.mp h) (by decide)

theorem digit_ne_minus (c : Char) (h : '0' ≤ c) : ¬ c = '-' := by
  intro he
  subst he
  exact absurd (char_le_iff.mp h) (by decide)

theorem toDec_cons_digit (n : Nat) :
    ∃ c rest, toDec n = c :: rest ∧ '0' ≤ c ∧ c ≤ '9' := by
  by_cases h0 : n = 0
  · subst h0
    exact ⟨'0', [], rfl, by decide, by decide⟩
  · obtain ⟨d, rest, he, h1, h9⟩ := toDec_head n (by omega)
    exact ⟨digitCh d, rest, he, (digitCh_bounds d (by omega)).1, (digitCh_bounds d (by omega)).2⟩

theorem pow_pred_le_63 (bitSize : Nat) (hb : bitSize ≤ 64) :
    2 ^ (bitSize - 1) ≤ 2 ^ 63 :=
  Nat.pow_le_pow_right (by norm_num) (by omega)

theorem goParseInt_negStr (l : List Char) (b : Nat) :
    goParseInt (String.mk ('-' :: l)) b
      = match goParseUintB0 l 64 with
        | none => none
        | some un => if 2 ^ (b - 1) < un then none else some (-(un : Int)) := by
  unfold goParseInt
  have hdata : (String.mk ('-' :: l)).data = '-' :: l := rfl
  rw [hdata]
  rcases hu : goParseUintB0 l 64 with _ | un
  · simp [hu]
  · simp [hu]

theorem goParseInt_plusStr (l : List Char) (b : Nat) :
    goParseInt (String.mk ('+' :: l)) b
      = match goParseUintB0 l 64 with
        | none => none
        | some un => if 2 ^ (b - 1) ≤ un then none else some (un : Int) := by
  unfold goParseInt
  have hdata : (String.mk ('+' :: l)).data = '+' :: l := rfl
  rw [hdata]
  rcases hu : goParseUintB0 l 64 with _ | un
  · simp [hu]
  · simp [hu]

theorem goParseInt_posStr (c : Char) (l : List Char) (b : Nat)
    (h1 : ¬ c = '+') (h2 : ¬ c = '-') :
    goParseInt (String.mk (c :: l)) b
      = match goParseUintB0 (c :: l) 64 with
        | none => none
        | some un => if 2 ^ (b - 1) ≤ un then none else some (un : Int) := by
  unfold goParseInt
  have hdata : (String.mk (c :: l)).data = c :: l := rfl
  rw [hdata]
  rcases hu : goParseUintB0 (c :: l) 64 with _ | un
  · simp [hu, h1, h2]
  · simp [hu, h1, h2]

theorem goParseInt_toDec (n : Nat) (bitSize : Nat) (hb : bitSize ≤ 64)
    (h : n < 2 ^ (bitSize - 1)) :
    goParseInt (String.mk (toDec n)) bitSize = some (n : Int) := by
  obtain ⟨c, rest, he, hc0, hc9⟩ := toDec_cons_digit n
  have hle : n ≤ 2 ^ 64 - 1 := by
    have := pow_pred_le_63 bitSize hb
    have h63 : (2 : Nat) ^ 63 ≤ 2 ^ 64 - 1 := by norm_num
    omega
  rw [he, goParseInt_posStr c rest bitSize (digit_ne_plus c hc0) (digit_ne_minus c hc0), ← he,
    goParseUintB0_toDec n 64 hle]
  simp [Nat.not_le.mpr h]

theorem goParseInt_goFormatInt (i : Int) (bitSize : Nat) (hb : bitSize ≤ 64)
    (h1 : -(2 ^ (bitSize - 1) : Nat) ≤ i) (h2 : i < (2 ^ (bitSize - 1) : Nat)) :
    goParseInt (goFormatInt i) bitSize = some i := by
  by_cases hneg : i < 0
  · have hle64 : i.natAbs ≤ 2 ^ 64 - 1 := by
      have := pow_pred_le_63 bitSize hb
      have h63 : (2 : Nat) ^ 63 ≤ 2 ^ 64 - 1 := by norm_num
      omega
    rw [goFormatInt, if_pos hneg, goParseInt_negStr, goParseUintB0_toDec i.natAbs 64 hle64]
    simp only [(by omega : ¬ (2 ^ (bitSize - 1) : Nat) < i.natAbs), if_false,
      eq_false (by omega : ¬ (2 ^ (bitSize - 1) : Nat) < i.natAbs)]
    exact congrArg some (by omega)
  · rw [goFormatInt, if_neg hneg, goParseInt_toDec i.toNat bitSize hb (by omega)]
    exact congrArg some (by omega)

theorem goParseInt_bounds (s : String) (b : Nat) (v : Int)
    (h : goParseInt s b = some v) : -(2 ^ (b - 1) : Nat) ≤ v ∧ v < (2 ^ (b - 1) : Nat) := by
  have hpos : (1 : Nat) ≤ 2 ^ (b - 1) := Nat.one_le_two_pow
  obtain ⟨cs⟩ := s
  rcases cs with _ | ⟨c, rest⟩
  · exact absurd h (by simp [goParseInt])
  · by_cases hm : c = '-'
    · subst hm
      rw [goParseInt_negStr] at h
      rcases hu : goParseUintB0 rest 64 with _ | un <;> rw [hu] at h
      · exact absurd h (by simp)
      · simp only [] at h
        split at h
        · exact absurd h (by simp)
        · have hv : v = -(un : Int) := by
            exact (Option.some.injEq _ _ ▸ h).symm
          subst hv
          constructor <;> omega
    · by_cases hp : c = '+'
      · subst hp
        rw [goParseInt_plusStr] at h
        rcases hu : goParseUintB0 rest 64 with _ | un <;> rw [hu] at h
        · exact absurd h (by simp)
        · simp only [] at h
          split at h
          · exact absurd h (by simp)
          · have hv : v = (un : Int) := by
              exact (Option.some.injEq _ _ ▸ h).symm
            subst hv
            constructor <;> omega
      · rw [goParseInt_posStr c rest b hp hm] at h
        rcases hu : goParseUintB0 (c :: rest) 64 with _ | un <;> rw [hu] at h
        · exact absurd h (by simp)
        · simp only [] at h
          split at h
          · exact absurd h (by simp)
          · have hv : v = (un : Int) := by
              exact (Option.some.injEq _ _ ▸ h).symm
            subst hv
            constructor <;> omega

/-! Lemmas about Lookup, updFormal and the ParseFromData fold. -/

theorem find_map_upd (l : List GoOption) (m n : String) (v : GoVal) (h : ¬ m = n) :
    (l.map (fun o => if o.name == m then { o with value := v } else o)).find?
        (fun o => o.name == n)
      = l.find? (fun o => o.name == n) := by
  induction l with
  | nil => rfl
  | cons a l ih =>
    simp only [List.map_cons]
    by_cases ha : a.name = m
    · have e1 : ((if a.name == m then { a with value := v } else a) : GoOption)
          = { a with value := v } := by simp [ha]
      rw [e1,
        @List.find?_cons_of_neg GoOption (fun o => o.name == n) { a with value := v } _
          (by simp [ha, h]),
        @List.find?_cons_of_neg GoOption (fun o => o.name == n) a _ (by simp [ha, h])]
      exact ih
    · have e1 : ((if a.name == m then { a with value := v } else a) : GoOption) = a := by
        simp [ha]
      rw [e1]
      by_cases hn : a.name = n
      · rw [@List.find?_cons_of_pos GoOption (fun o => o.name == n) a _ (by simp [hn]),
          @List.find?_cons_of_pos GoOption (fun o => o.name == n) a _ (by simp [hn])]
      · rw [@List.find?_cons_of_neg GoOption (fun o => o.name == n) a _ (by simp [hn]),
          @List.find?_cons_of_neg GoOption (fun o => o.name == n) a _ (by simp [hn])]
        exact ih

theorem Lookup_updFormal_ne (c : ConfigSet) (m n : String) (v : GoVal) (h : ¬ m = n) :
    (c.updFormal m v).Lookup n = c.Lookup n :=
  find_map_upd c.formal m n v h

theorem find_map_upd_self (l : List GoOption) (n : String) (v : GoVal) (o : GoOption)
    (h : l.find? (fun x => x.name == n) = some o) :
    (l.map (fun x => if x.name == n then { x with value := v } else x)).find?
        (fun x => x.name == n)
      = some { o with value := v } := by
  induction l with
  | nil => simp [List.find?] at h
  | cons a l ih =>
    simp only [List.map_cons]
    by_cases ha : a.name = n
    · rw [@List.find?_cons_of_pos GoOption (fun x => x.name == n) a _ (by simp [ha])] at h
      have hoa : a = o := by injection h
      subst hoa
      have e1 : ((if a.name == n then { a with value := v } else a) : GoOption)
          = { a with value := v } := by simp [ha]
      rw [e1, @List.find?_cons_of_pos GoOption (fun x => x.name == n) { a with value := v } _
        (by simp [ha])]
    · rw [@List.find?_cons_of_neg GoOption (fun x => x.name == n) a _ (by simp [ha])] at h
      have e1 : ((if a.name == n then { a with value := v } else a) : GoOption) = a := by
        simp [ha]
      rw [e1, @List.find?_cons_of_neg GoOption (fun x => x.name == n) a _ (by simp [ha])]
      exact ih h

theorem Lookup_updFormal_self (c : ConfigSet) (n : String) (v : GoVal) (o : GoOption)
    (h : c.Lookup n = some o) :
    (c.updFormal n v).Lookup n = some { o with value := v } :=
  find_map_upd_self c.formal n v o h

theorem parseStep_cases (d : List (String × GoAny)) (acc : ConfigSet × Option GoErr)
    (n : String) :
    (n ∈ acc.1.actual ∧ parseStep d acc n = acc)
    ∨ (n ∉ acc.1.actual ∧ docFind d n = none ∧ parseStep d acc n = acc)
    ∨ (n ∉ acc.1.actual ∧ (∃ v, docFind d n = some v) ∧ acc.1.Lookup n = none ∧
        parseStep d acc n = acc)
    ∨ (∃ v o e, n ∉ acc.1.actual ∧ docFind d n = some v ∧ acc.1.Lookup n = some o ∧
        (o.value.set (goSprint v)).2 = some e ∧
        parseStep d acc n = (acc.1.updFormal n (o.value.set (goSprint v)).1, some e))
    ∨ (∃ v o, n ∉ acc.1.actual ∧ docFind d n = some v ∧ acc.1.Lookup n = some o ∧
        (o.value.set (goSprint v)).2 = none ∧
        parseStep d acc n =
          ({ acc.1.updFormal n (o.value.set (goSprint v)).1 with
              actual := acc.1.actual ++ [n] }, acc.2)) := by
  by_cases hmem : n ∈ acc.1.actual
  · exact Or.inl ⟨hmem, by simp [parseStep, hmem]⟩
  · rcases hdoc : docFind d n with _ | v
    · exact Or.inr (Or.inl ⟨hmem, rfl, by simp [parseStep, hmem, hdoc]⟩)
    · rcases hlk : acc.1.Lookup n with _ | o
      · exact Or.inr (Or.inr (Or.inl ⟨hmem, ⟨v, rfl⟩, rfl,
          by simp [parseStep, hmem, hdoc, hlk]⟩))
      · rcases hr : (o.value.set (goSprint v)).2 with _ | e
        · refine Or.inr (Or.inr (Or.inr (Or.inr ⟨v, o, hmem, rfl, rfl, hr, ?_⟩)))
          simp [parseStep, hmem, hdoc, hlk, hr, ConfigSet.updFormal]
        · refine Or.inr (Or.inr (Or.inr (Or.inl ⟨v, o, e, hmem, rfl, rfl, hr, ?_⟩)))
          simp [parseStep, hmem, hdoc, hlk, hr]

theorem parseFold_preserve (d : List (String × GoAny)) (L : List String) :
    ∀ (acc : ConfigSet × Option GoErr) (n : String), n ∈ acc.1.actual →
      (L.foldl (parseStep d) acc).1.Lookup n = acc.1.Lookup n ∧
      n ∈ (L.foldl (parseStep d) acc).1.actual := by
  induction L with
  | nil => exact fun acc n hn => ⟨rfl, hn⟩
  | cons m L ih =>
    intro acc n hn
    have hstep : (parseStep d acc m).1.Lookup n = acc.1.Lookup n ∧
        n ∈ (parseStep d acc m).1.actual := by
      rcases parseStep_cases d acc m with ⟨h1, h2⟩ | ⟨h1, _, h2⟩ | ⟨h1, _, _, h2⟩ |
        ⟨v, o, e, h1, _, _, _, h2⟩ | ⟨v, o, h1, _, _, _, h2⟩
      · rw [h2]; exact ⟨rfl, hn⟩
      · rw [h2]; exact ⟨rfl, hn⟩
      · rw [h2]; exact ⟨rfl, hn⟩
      · rw [h2]
        exact ⟨Lookup_updFormal_ne _ _ _ _ (fun he => h1 (he ▸ hn)), hn⟩
      · rw [h2]
        exact ⟨Lookup_updFormal_ne _ _ _ _ (fun he => h1 (he ▸ hn)),
          List.mem_append_left _ hn⟩
    rw [List.foldl_cons]
    obtain ⟨hL, hA⟩ := hstep
    obtain ⟨ih1, ih2⟩ := ih (parseStep d acc m) n hA
    exact ⟨ih1.trans hL, ih2⟩

theorem parseFold_notmem (d : List (String × GoAny)) (L : List String) :
    ∀ (acc : ConfigSet × Option GoErr) (n : String), n ∉ L →
      (L.foldl (parseStep d) acc).1.Lookup n = acc.1.Lookup n ∧
      ((n ∈ (L.foldl (parseStep d) acc).1.actual) ↔ n ∈ acc.1.actual) := by
  induction L with
  | nil => exact fun acc n _ => ⟨rfl, Iff.rfl⟩
  | cons m L ih =>
    intro acc n hn
    have hmn : ¬ m = n := fun he => hn (he ▸ List.mem_cons_self m L)
    have hnL : n ∉ L := fun hh => hn (List.mem_cons_of_mem m hh)
    have hstep : (parseStep d acc m).1.Lookup n = acc.1.Lookup n ∧
        ((n ∈ (parseStep d acc m).1.actual) ↔ n ∈ acc.1.actual) := by
      rcases parseStep_cases d acc m with ⟨h1, h2⟩ | ⟨h1, _, h2⟩ | ⟨h1, _, _, h2⟩ |
        ⟨v, o, e, h1, _, _, _, h2⟩ | ⟨v, o, h1, _, _, _, h2⟩
      · rw [h2]; exact ⟨rfl, Iff.rfl⟩
      · rw [h2]; exact ⟨rfl, Iff.rfl⟩
      · rw [h2]; exact ⟨rfl, Iff.rfl⟩
      · rw [h2]
        exact ⟨Lookup_updFormal_ne _ _ _ _ hmn, Iff.rfl⟩
      · rw [h2]
        refine ⟨Lookup_updFormal_ne _ _ _ _ hmn, ?_⟩
        show n ∈ acc.1.actual ++ [m] ↔ n ∈ acc.1.actual
        rw [List.mem_append, List.mem_singleton]
        exact ⟨fun hh => hh.resolve_right (fun hh2 => hmn hh2.symm), Or.inl⟩
    rw [List.foldl_cons]
    obtain ⟨hL, hA⟩ := hstep
    obtain ⟨ih1, ih2⟩ := ih (parseStep d acc m) n hnL
    exact ⟨ih1.trans hL, ih2.trans hA⟩

theorem parseFold_hit (d : List (String × GoAny)) (L : List String) :
    ∀ (acc : ConfigSet × Option GoErr) (n : String) (o : GoOption) (v : GoAny) (w : GoVal),
      L.Nodup → n ∈ L → n ∉ acc.1.actual →
      acc.1.Lookup n = some o → docFind d n = some v →
      o.value.set (goSprint v) = (w, none) →
      (L.foldl (parseStep d) acc).1.Lookup n = some { o with value := w } := by
  induction L with
  | nil => exact fun _ n _ _ _ _ h => absurd h (List.not_mem_nil n)
  | cons m L ih =>
    intro acc n o v w hnd hmem hna hlk hdoc hset
    rw [List.foldl_cons]
    by_cases hm : m = n
    · subst hm
      have hr1 : (o.value.set (goSprint v)).1 = w := by rw [hset]
      have hr2 : (o.value.set (goSprint v)).2 = none := by rw [hset]
      have hstep : parseStep d acc m =
          ({ acc.1.updFormal m w with actual := acc.1.actual ++ [m] }, acc.2) := by
        rcases parseStep_cases d acc m with ⟨h1, _⟩ | ⟨_, h1, _⟩ | ⟨_, _, h1, _⟩ |
          ⟨v2, o2, e2, _, hd2, hl2, hs2, _⟩ | ⟨v2, o2, _, hd2, hl2, hs2, h2⟩
        · exact absurd h1 hna
        · rw [hdoc] at h1; exact absurd h1 (by simp)
        · rw [hlk] at h1; exact absurd h1 (by simp)
        · rw [hdoc] at hd2
          rw [hlk] at hl2
          have hv2 : v2 = v := by injection hd2.symm
          have ho2 : o2 = o := by injection hl2.symm
          subst hv2; subst ho2
          rw [hr2] at hs2
          exact absurd hs2 (by simp)
        · rw [hdoc] at hd2
          rw [hlk] at hl2
          have hv2 : v2 = v := by injection hd2.symm
          have ho2 : o2 = o := by injection hl2.symm
          subst hv2; subst ho2
          rw [h2, hr1]
      rw [hstep]
      have hpres := parseFold_preserve d L
        ({ acc.1.updFormal m w with actual := acc.1.actual ++ [m] }, acc.2) m
        (List.mem_append_right _ (List.mem_singleton.mpr rfl))
      rw [hpres.1]
      show (acc.1.updFormal m w).Lookup m = _
      exact Lookup_updFormal_self acc.1 m w o hlk
    · have hmem2 : n ∈ L := by
        rcases List.mem_cons.mp hmem with he | hh
        · exact absurd he.symm hm
        · exact hh
      have hstep : (parseStep d acc m).1.Lookup n = acc.1.Lookup n ∧
          n ∉ (parseStep d acc m).1.actual := by
        rcases parseStep_cases d acc m with ⟨h1, h2⟩ | ⟨h1, _, h2⟩ | ⟨h1, _, _, h2⟩ |
          ⟨v2, o2, e2, h1, _, _, _, h2⟩ | ⟨v2, o2, h1, _, _, _, h2⟩
        · rw [h2]; exact ⟨rfl, hna⟩
        · rw [h2]; exact ⟨rfl, hna⟩
        · rw [h2]; exact ⟨rfl, hna⟩
        · rw [h2]
          exact ⟨Lookup_updFormal_ne _ _ _ _ hm, hna⟩
        · rw [h2]
          refine ⟨Lookup_updFormal_ne _ _ _ _ hm, ?_⟩
          show n ∉ acc.1.actual ++ [m]
          rw [List.mem_append, List.mem_singleton]
          rintro (hh | hh)
          · exact hna hh
          · exact hm hh.symm
      exact ih (parseStep d acc m) n o v w (List.Nodup.of_cons hnd) hmem2 hstep.2
        (hstep.1.trans hlk) hdoc hset

theorem parseStep_trace (d : List (String × GoAny)) (c : ConfigSet) (e : Option GoErr)
    (errs : List GoErr) (n : String) (h : e = errs.getLast?) :
    (parseStep d (c, e) n).1 = (parseTraceStep d (c, errs) n).1 ∧
    (parseStep d (c, e) n).2 = (parseTraceStep d (c, errs) n).2.getLast? := by
  by_cases hmem : n ∈ c.actual
  · constructor <;> simp [parseStep, parseTraceStep, hmem, h]
  · rcases hdoc : docFind d n with _ | v
    · constructor <;> simp [parseStep, parseTraceStep, hmem, hdoc, h]
    · rcases hlk : c.Lookup n with _ | o
      · constructor <;> simp [parseStep, parseTraceStep, hmem, hdoc, hlk, h]
      · rcases hr : (o.value.set (goSprint v)).2 with _ | er
        · constructor <;> simp [parseStep, parseTraceStep, hmem, hdoc, hlk, hr, h]
        · constructor <;>
            simp [parseStep, parseTraceStep, hmem, hdoc, hlk, hr, h, List.getLast?_concat]

theorem parseFold_trace (d : List (String × GoAny)) (L : List String) :
    ∀ (c : ConfigSet) (e : Option GoErr) (errs : List GoErr), e = errs.getLast? →
      (L.foldl (parseStep d) (c, e)).1 = (L.foldl (parseTraceStep d) (c, errs)).1 ∧
      (L.foldl (parseStep d) (c, e)).2 = (L.foldl (parseTraceStep d) (c, errs)).2.getLast? := by
  induction L with
  | nil => exact fun c e errs h => ⟨rfl, h⟩
  | cons m L ih =>
    intro c e errs h
    obtain ⟨h1, h2⟩ := parseStep_trace d c e errs m h
    rw [List.foldl_cons, List.foldl_cons]
    have hs1 : parseStep d (c, e) m =
        ((parseTraceStep d (c, errs) m).1, (parseStep d (c, e) m).2) := by
      rw [← h1]
    rw [hs1]
    exact ih (parseTraceStep d (c, errs) m).1 (parseStep d (c, e) m).2
      (parseTraceStep d (c, errs) m).2 h2

/-! Character lowercasing, well-formedness of Set results, sorting, and the
per-wrapper save/parse round trip. -/

theorem toNat_ofNat_valid (n : Nat) (h : n < 55296) : (Char.ofNat n).toNat = n := by
  have hv : n.isValidChar := Or.inl h
  rw [Char.ofNat, dif_pos hv]
  simp [Char.ofNatAux, Char.toNat, UInt32.toNat]

theorem lowerChar_idem (c : Char) : lowerChar (lowerChar c) = lowerChar c := by
  unfold lowerChar
  by_cases h : 'A' ≤ c ∧ c ≤ 'Z'
  · rw [if_pos h]
    have hA : ('A' : Char).toNat = 65 := by decide
    have h90 : ('Z' : Char).toNat = 90 := by decide
    have hz : c.toNat ≤ 90 := by
      have h2 := char_le_iff.mp h.2
      omega
    have ha : 65 ≤ c.toNat := by
      have h2 := char_le_iff.mp h.1
      omega
    have ht : (Char.ofNat (c.toNat + 32)).toNat = c.toNat + 32 := by
      apply toNat_ofNat_valid
      omega
    rw [if_neg]
    intro hc
    have h3 := char_le_iff.mp hc.2
    rw [ht] at h3
    omega
  · rw [if_neg h, if_neg h]

theorem goToLower_idem (s : String) : goToLower (goToLower s) = goToLower s := by
  show String.mk ((s.data.map lowerChar).map lowerChar) = String.mk (s.data.map lowerChar)
  rw [List.map_map]
  exact congrArg String.mk (List.map_congr_left (fun c _ => lowerChar_idem c))

theorem set_wfb (v : GoVal) (s : String) (w : GoVal) (h : v.set s = (w, none)) :
    w.wfb = true := by
  cases v with
  | vBool b =>
    have hw : w = ((GoVal.vBool b).set s).1 := by rw [h]
    rw [hw]
    rfl
  | vString t =>
    have hw : w = ((GoVal.vString t).set s).1 := by rw [h]
    rw [hw]
    rfl
  | vInt32 i =>
    rcases hp : goParseInt s 32 with _ | x <;> simp only [GoVal.set, hp] at h
    · injection h with h1 h2
      exact absurd h2 (by simp)
    · injection h with h1 h2
      obtain ⟨hb1, hb2⟩ := goParseInt_bounds s 32 x hp
      rw [← h1]
      simp only [GoVal.wfb, decide_eq_true_eq]
      constructor <;> [exact_mod_cast hb1; exact_mod_cast hb2]
  | vInt64 i =>
    rcases hp : goParseInt s 64 with _ | x <;> simp only [GoVal.set, hp] at h
    · injection h with h1 h2
      exact absurd h2 (by simp)
    · injection h with h1 h2
      obtain ⟨hb1, hb2⟩ := goParseInt_bounds s 64 x hp
      rw [← h1]
      simp only [GoVal.wfb, decide_eq_true_eq]
      constructor <;> [exact_mod_cast hb1; exact_mod_cast hb2]
  | vStringRange p val cs allowed =>
    by_cases hcont : allowed.contains (if cs then s else goToLower s) = true
    · simp only [GoVal.set, if_pos hcont] at h
      injection h with h1 h2
      rw [← h1]
      simp only [GoVal.wfb, Bool.and_eq_true, Bool.or_eq_true, beq_iff_eq]
      refine ⟨hcont, ?_⟩
      by_cases hcs : cs = true
      · exact Or.inl hcs
      · simp only [Bool.not_eq_true] at hcs
        subst hcs
        simp only [Bool.false_eq_true, if_false]
        exact Or.inr (goToLower_idem s)
    · simp only [GoVal.set, if_neg hcont] at h
      injection h with h1 h2
      exact absurd h2 (by simp)
  | vInt32Range p val lo hi =>
    rcases hp : goParseInt s 32 with _ | x <;> simp only [GoVal.set, hp] at h
    · injection h with h1 h2
      exact absurd h2 (by simp)
    · obtain ⟨hb1, hb2⟩ := goParseInt_bounds s 32 x hp
      by_cases hrange : hi < x ∨ x < lo
      · rw [if_pos hrange] at h
        injection h with h1 h2
        exact absurd h2 (by simp)
      · rw [if_neg hrange] at h
        injection h with h1 h2
        rw [← h1]
        simp only [GoVal.wfb, decide_eq_true_eq]
        refine ⟨by omega, by omega, by exact_mod_cast hb1, by exact_mod_cast hb2⟩
  | vInt64Range p val lo hi =>
    rcases hp : goParseInt s 64 with _ | x <;> simp only [GoVal.set, hp] at h
    · injection h with h1 h2
      exact absurd h2 (by simp)
    · obtain ⟨hb1, hb2⟩ := goParseInt_bounds s 64 x hp
      by_cases hrange : hi < x ∨ x < lo
      · rw [if_pos hrange] at h
        injection h with h1 h2
        exact absurd h2 (by simp)
      · rw [if_neg hrange] at h
        injection h with h1 h2
        rw [← h1]
        simp only [GoVal.wfb, decide_eq_true_eq]
        refine ⟨by omega, by omega, by exact_mod_cast hb1, by exact_mod_cast hb2⟩
  | vFloat32 x =>
    rcases hp : goParseFloat s with _ | v <;> simp only [GoVal.set, hp] at h
    · injection h with h1 h2
      exact absurd h2 (by simp)
    · injection h with h1 h2
      rw [← h1]
      rfl
  | vFloat64 x =>
    rcases hp : goParseFloat s with _ | v <;> simp only [GoVal.set, hp] at h
    · injection h with h1 h2
      exact absurd h2 (by simp)
    · injection h with h1 h2
      rw [← h1]
      rfl
  | vFloat32Range p val lo hi =>
    rcases hp : goParseFloat s with _ | v <;> simp only [GoVal.set, hp] at h
    · injection h with h1 h2
      exact absurd h2 (by simp)
    · by_cases hrange : (GoFloat.flt hi v || GoFloat.flt v lo) = true
      · rw [if_pos hrange] at h
        injection h with h1 h2
        exact absurd h2 (by simp)
      · rw [if_neg hrange] at h
        injection h with h1 h2
        rw [← h1]
        have hf : (GoFloat.flt hi v || GoFloat.flt v lo) = false := by
          cases hb : (GoFloat.flt hi v || GoFloat.flt v lo)
          · rfl
          · exact absurd hb hrange
        simp [GoVal.wfb, hf]
  | vFloat64Range p val lo hi =>
    rcases hp : goParseFloat s with _ | v <;> simp only [GoVal.set, hp] at h
    · injection h with h1 h2
      exact absurd h2 (by simp)
    · by_cases hrange : (GoFloat.flt hi v || GoFloat.flt v lo) = true
      · rw [if_pos hrange] at h
        injection h with h1 h2
        exact absurd h2 (by simp)
      · rw [if_neg hrange] at h
        injection h with h1 h2
        rw [← h1]
        have hf : (GoFloat.flt hi v || GoFloat.flt v lo) = false := by
          cases hb : (GoFloat.flt hi v || GoFloat.flt v lo)
          · rfl
          · exact absurd hb hrange
        simp [GoVal.wfb, hf]

theorem isDigitB_eq (c : Char) (h1 : '0' ≤ c) (h2 : c ≤ '9') : isDigitB c = true :=
  decide_eq_true ⟨h1, h2⟩

theorem toDec_isDigit (n : Nat) : ∀ c ∈ toDec n, isDigitB c = true := by
  intro c hc
  exact isDigitB_eq c (toDec_digits n c hc).1 (toDec_digits n c hc).2

theorem padZeros_isDigit (k : Nat) (l : List Char) (hl : ∀ c ∈ l, isDigitB c = true) :
    ∀ c ∈ padZeros k l, isDigitB c = true := by
  intro c hc
  rw [padZeros, List.mem_append] at hc
  rcases hc with hc | hc
  · rw [List.eq_of_mem_replicate hc]
    decide
  · exact hl c hc

theorem takeWhile_append_digits (l r : List Char) (hl : ∀ c ∈ l, isDigitB c = true)
    (hr : match r with | [] => True | c :: _ => isDigitB c = false) :
    (l ++ r).takeWhile isDigitB = l ∧ (l ++ r).dropWhile isDigitB = r := by
  induction l with
  | nil =>
    cases r with
    | nil => exact ⟨rfl, rfl⟩
    | cons c rt =>
      refine ⟨?_, ?_⟩
      · simp [List.takeWhile_cons, hr]
      · simp [List.dropWhile_cons, hr]
  | cons c t ih =>
    have hc : isDigitB c = true := hl c (List.mem_cons_self c t)
    have iht := ih fun d hd => hl d (List.mem_cons_of_mem c hd)
    refine ⟨?_, ?_⟩
    · simp [List.takeWhile_cons, hc, iht.1]
    · simp [List.dropWhile_cons, hc, iht.2]

theorem tw_all_digits (l : List Char) (hl : ∀ c ∈ l, isDigitB c = true) :
    l.takeWhile isDigitB = l ∧ l.dropWhile isDigitB = [] := by
  have h := takeWhile_append_digits l [] hl (by trivial)
  simpa using h

theorem evalD_zeros (m : Nat) : evalD 0 (List.replicate m '0') = 0 := by
  induction m with
  | zero => rfl
  | succ k ih =>
    rw [List.replicate_succ, evalD_cons]
    exact ih

theorem evalD_padZeros (k : Nat) (l : List Char) :
    evalD 0 (padZeros k l) = evalD 0 l := by
  rw [padZeros, evalD_append, evalD_zeros]

theorem padZeros_length (k : Nat) (l : List Char) (h : l.length ≤ k) :
    (padZeros k l).length = k := by
  rw [padZeros, List.length_append, List.length_replicate]
  omega

theorem toDec_length_le (k : Nat) : ∀ n, n < 10 ^ k → 1 ≤ k → (toDec n).length ≤ k := by
  induction k with
  | zero =>
    intro n h1 h2
    omega
  | succ k ih =>
    intro n h1 h2
    by_cases hn : n < 10
    · rw [toDec_small n hn]
      simp
    · have h10 : 10 ≤ n := by omega
      rw [toDec_step n h10, List.length_append]
      have hk : 1 ≤ k := by
        by_contra hk0
        have hz : k = 0 := by omega
        subst hz
        simp at h1
        omega
      have hdiv : n / 10 < 10 ^ k := by
        have hsp : (10 : Nat) ^ (k + 1) = 10 * 10 ^ k := by ring
        omega
      have hlen := ih (n / 10) hdiv hk
      simp only [List.length_cons, List.length_nil]
      omega

theorem parseDecCore_int (neg : Bool) (m : Nat) :
    parseDecCore neg (toDec m) = some (if neg then -(m : Int) else (m : Int), 0) := by
  obtain ⟨c, rest, hcl, hc1, hc2⟩ := toDec_cons_digit m
  have htw := tw_all_digits (toDec m) (toDec_isDigit m)
  simp only [parseDecCore, htw.1, htw.2]
  rw [if_neg (by simp [hcl])]
  cases neg <;> simp [evalD_toDec, evalD_nil]

theorem parseDecCore_frac (neg : Bool) (m p : Nat) (hp : 1 ≤ p) :
    parseDecCore neg (toDec (m / 10 ^ p) ++ '.' :: padZeros p (toDec (m % 10 ^ p))) =
      some (if neg then -(m : Int) else (m : Int), p) := by
  obtain ⟨c, rest, hcl, hc1, hc2⟩ := toDec_cons_digit (m / 10 ^ p)
  have htw := takeWhile_append_digits (toDec (m / 10 ^ p))
    ('.' :: padZeros p (toDec (m % 10 ^ p))) (toDec_isDigit _) rfl
  have htw2 := tw_all_digits (padZeros p (toDec (m % 10 ^ p)))
    (padZeros_isDigit p _ (toDec_isDigit _))
  have hlen : (padZeros p (toDec (m % 10 ^ p))).length = p :=
    padZeros_length p _ (toDec_length_le p (m % 10 ^ p) (Nat.mod_lt m (by positivity)) hp)
  simp only [parseDecCore, htw.1, htw.2, htw2.1, htw2.2]
  rw [if_neg (by simp [hcl])]
  simp only [hlen, evalD_toDec, evalD_padZeros]
  have hval : m / 10 ^ p * 10 ^ p + m % 10 ^ p = m := by
    have h := Nat.div_add_mod m (10 ^ p)
    rw [Nat.mul_comm (10 ^ p) (m / 10 ^ p)] at h
    exact h
  rw [hval]

theorem goParseDec_mk_cons (c : Char) (rest : List Char) :
    goParseDec (String.mk (c :: rest)) =
      if c = '+' then parseDecCore false rest
      else if c = '-' then parseDecCore true rest
      else parseDecCore false (c :: rest) := by
  by_cases h1 : c = '+'
  · simp [goParseDec, h1]
  · by_cases h2 : c = '-'
    · simp [goParseDec, h1, h2]
    · simp [goParseDec, h1, h2]

theorem lowerChar_fix_small (c : Char) (h : c.toNat < 65) : lowerChar c = c := by
  rw [lowerChar, if_neg]
  intro hc
  have hA : ('A' : Char).toNat = 65 := by decide
  have h1 := char_le_iff.mp hc.1
  rw [hA] at h1
  omega

theorem lower_ne_lit (c : Char) (t : List Char) (d : Char) (wt : List Char)
    (hc : lowerChar c = c) (hne : ¬ c = d) :
    ¬ goToLower (String.mk (c :: t)) = String.mk (d :: wt) := by
  intro he
  have hd : lowerChar c :: t.map lowerChar = d :: wt := congrArg String.data he
  injection hd with hd1 _
  rw [hc] at hd1
  exact hne hd1

theorem lower_ne_lit2 (c c2 : Char) (t : List Char) (d d2 : Char) (wt : List Char)
    (hc2 : lowerChar c2 = c2) (hne : ¬ c2 = d2) :
    ¬ goToLower (String.mk (c :: c2 :: t)) = String.mk (d :: d2 :: wt) := by
  intro he
  have hd : lowerChar c :: lowerChar c2 :: t.map lowerChar = d :: d2 :: wt :=
    congrArg String.data he
  injection hd with _ hd2
  injection hd2 with hd21 _
  rw [hc2] at hd21
  exact hne hd21

theorem digit_toNat_le (c : Char) (h1 : '0' ≤ c) (h2 : c ≤ '9') :
    48 ≤ c.toNat ∧ c.toNat ≤ 57 := by
  have hz : ('0' : Char).toNat = 48 := by decide
  have hn : ('9' : Char).toNat = 57 := by decide
  have ha := char_le_iff.mp h1
  have hb := char_le_iff.mp h2
  rw [hz] at ha
  rw [hn] at hb
  exact ⟨ha, hb⟩

theorem goParseFloat_digit_head (c : Char) (t : List Char) (h1 : '0' ≤ c) (h2 : c ≤ '9') :
    goParseFloat (String.mk (c :: t)) =
      match goParseDec (String.mk (c :: t)) with
      | some np => some (GoFloat.finite np.1 np.2)
      | none => none := by
  obtain ⟨ha, hb⟩ := digit_toNat_le c h1 h2
  have hfix : lowerChar c = c := lowerChar_fix_small c (by omega)
  have hd : ∀ d : Char, 57 < d.toNat ∨ d.toNat < 48 → ¬ c = d := by
    intro d hdt he
    subst he
    omega
  simp only [goParseFloat]
  rw [if_neg (lower_ne_lit c t 'n' _ hfix (hd 'n' (by decide)))]
  rw [if_neg ?hinf]
  case hinf =>
    rintro (h | h | h | h)
    · exact lower_ne_lit c t 'i' _ hfix (hd 'i' (by decide)) h
    · exact lower_ne_lit c t '+' _ hfix (hd '+' (by decide)) h
    · exact lower_ne_lit c t 'i' _ hfix (hd 'i' (by decide)) h
    · exact lower_ne_lit c t '+' _ hfix (hd '+' (by decide)) h
  rw [if_neg ?hninf]
  case hninf =>
    rintro (h | h)
    · exact lower_ne_lit c t '-' _ hfix (hd '-' (by decide)) h
    · exact lower_ne_lit c t '-' _ hfix (hd '-' (by decide)) h

theorem goParseFloat_minus_head (c : Char) (t : List Char) (h1 : '0' ≤ c) (h2 : c ≤ '9') :
    goParseFloat (String.mk ('-' :: c :: t)) =
      match goParseDec (String.mk ('-' :: c :: t)) with
      | some np => some (GoFloat.finite np.1 np.2)
      | none => none := by
  obtain ⟨ha, hb⟩ := digit_toNat_le c h1 h2
  have hfixm : lowerChar '-' = '-' := by decide
  have hfixc : lowerChar c = c := lowerChar_fix_small c (by omega)
  have hdc : ∀ d : Char, 57 < d.toNat ∨ d.toNat < 48 → ¬ c = d := by
    intro d hdt he
    subst he
    omega
  simp only [goParseFloat]
  rw [if_neg (lower_ne_lit '-' _ 'n' _ hfixm (by decide))]
  rw [if_neg ?hinf]
  case hinf =>
    rintro (h | h | h | h)
    · exact lower_ne_lit '-' _ 'i' _ hfixm (by decide) h
    · exact lower_ne_lit '-' _ '+' _ hfixm (by decide) h
    · exact lower_ne_lit '-' _ 'i' _ hfixm (by decide) h
    · exact lower_ne_lit '-' _ '+' _ hfixm (by decide) h
  rw [if_neg ?hninf]
  case hninf =>
    rintro (h | h)
    · exact lower_ne_lit2 '-' c t '-' 'i' _ hfixc (hdc 'i' (by decide)) h
    · exact lower_ne_lit2 '-' c t '-' 'i' _ hfixc (hdc 'i' (by decide)) h

theorem goParseFloat_format_int0 (n : Int) :
    goParseFloat (goFormatInt n) = some (GoFloat.finite n 0) := by
  by_cases hn : n < 0
  · rw [goFormatInt, if_pos hn]
    obtain ⟨c, rest, hcl, hc1, hc2⟩ := toDec_cons_digit n.natAbs
    rw [hcl, goParseFloat_minus_head c rest hc1 hc2, goParseDec_mk_cons]
    rw [if_neg (by decide), if_pos rfl, ← hcl, parseDecCore_int]
    have hval : -((n.natAbs : Nat) : Int) = n := by omega
    exact congrArg (fun z => some (GoFloat.finite z 0)) hval
  · rw [goFormatInt, if_neg hn]
    obtain ⟨c, rest, hcl, hc1, hc2⟩ := toDec_cons_digit n.toNat
    rw [hcl, goParseFloat_digit_head c rest hc1 hc2, goParseDec_mk_cons]
    rw [if_neg (digit_ne_plus c hc1), if_neg (digit_ne_minus c hc1), ← hcl, parseDecCore_int]
    have hval : ((n.toNat : Nat) : Int) = n := by omega
    exact congrArg (fun z => some (GoFloat.finite z 0)) hval

theorem goParseFloat_goFormatFloat (x : GoFloat) :
    goParseFloat (goFormatFloat x) = some x := by
  cases x with
  | nan => decide
  | inf neg => cases neg <;> decide
  | finite n p =>
    by_cases hp : p = 0
    · subst hp
      simp only [goFormatFloat, if_pos rfl]
      exact goParseFloat_format_int0 n
    · have hp1 : 1 ≤ p := by omega
      simp only [goFormatFloat, if_neg hp]
      obtain ⟨c, rest, hcl, hc1, hc2⟩ := toDec_cons_digit (n.natAbs / 10 ^ p)
      by_cases hn : n < 0
      · rw [if_pos hn]
        have hshape : (['-'] ++ toDec (n.natAbs / 10 ^ p)
            ++ '.' :: padZeros p (toDec (n.natAbs % 10 ^ p)))
            = '-' :: c :: (rest ++ '.' :: padZeros p (toDec (n.natAbs % 10 ^ p))) := by
          rw [hcl]
          rfl
        rw [hshape, goParseFloat_minus_head c _ hc1 hc2, goParseDec_mk_cons]
        rw [if_neg (by decide), if_pos rfl]
        have hback : (c :: (rest ++ '.' :: padZeros p (toDec (n.natAbs % 10 ^ p))))
            = toDec (n.natAbs / 10 ^ p) ++ '.' :: padZeros p (toDec (n.natAbs % 10 ^ p)) := by
          rw [hcl]
          rfl
        rw [hback, parseDecCore_frac true n.natAbs p hp1]
        have hval : -((n.natAbs : Nat) : Int) = n := by omega
        exact congrArg (fun z => some (GoFloat.finite z p)) hval
      · rw [if_neg hn]
        have hshape : (([] : List Char) ++ toDec (n.natAbs / 10 ^ p)
            ++ '.' :: padZeros p (toDec (n.natAbs % 10 ^ p)))
            = c :: (rest ++ '.' :: padZeros p (toDec (n.natAbs % 10 ^ p))) := by
          rw [hcl]
          rfl
        rw [hshape, goParseFloat_digit_head c _ hc1 hc2, goParseDec_mk_cons]
        rw [if_neg (digit_ne_plus c hc1), if_neg (digit_ne_minus c hc1)]
        have hback : (c :: (rest ++ '.' :: padZeros p (toDec (n.natAbs % 10 ^ p))))
            = toDec (n.natAbs / 10 ^ p) ++ '.' :: padZeros p (toDec (n.natAbs % 10 ^ p)) := by
          rw [hcl]
          rfl
        rw [hback, parseDecCore_frac false n.natAbs p hp1]
        have hval : ((n.natAbs : Nat) : Int) = n := by omega
        exact congrArg (fun z => some (GoFloat.finite z p)) hval

theorem flt_nan_right (x : GoFloat) : GoFloat.flt x .nan = false := by
  cases x <;> rfl

theorem flt_nan_left (x : GoFloat) : GoFloat.flt .nan x = false := by
  cases x <;> rfl

theorem fle_nan_right (x : GoFloat) : GoFloat.fle x .nan = false := by
  cases x <;> rfl

theorem fle_nan_left (x : GoFloat) : GoFloat.fle .nan x = false := by
  cases x <;> rfl

theorem fle_ne_nan (a b : GoFloat) (h : GoFloat.fle a b = true) :
    ¬ a = .nan ∧ ¬ b = .nan := by
  constructor
  · intro he
    subst he
    exact absurd h (by simp [fle_nan_left])
  · intro he
    subst he
    exact absurd h (by simp [fle_nan_right])

theorem fle_flt_false (a b : GoFloat) (h : GoFloat.fle a b = true) :
    GoFloat.flt b a = false := by
  cases a with
  | nan => exact absurd h (by simp [fle_nan_left])
  | inf n1 =>
    cases b with
    | nan => exact absurd h (by simp [fle_nan_right])
    | inf n2 =>
      revert h
      cases n1 <;> cases n2 <;> decide
    | finite m p =>
      simp only [GoFloat.fle] at h
      simp only [GoFloat.flt, h, Bool.not_true]
  | finite m1 p1 =>
    cases b with
    | nan => exact absurd h (by simp [fle_nan_right])
    | inf n2 =>
      simp only [GoFloat.fle, Bool.not_eq_true'] at h
      simp only [GoFloat.flt, h]
    | finite m2 p2 =>
      simp only [GoFloat.fle, decide_eq_true_eq] at h
      simp only [GoFloat.flt, decide_eq_false_iff_not]
      exact not_lt.mpr h

theorem flt_false_fle (a b : GoFloat) (ha : ¬ a = .nan) (hb : ¬ b = .nan)
    (h : GoFloat.flt b a = false) : GoFloat.fle a b = true := by
  cases a with
  | nan => exact absurd rfl ha
  | inf n1 =>
    cases b with
    | nan => exact absurd rfl hb
    | inf n2 =>
      revert h
      cases n1 <;> cases n2 <;> decide
    | finite m p =>
      cases n1
      · simp [GoFloat.flt] at h
      · rfl
  | finite m1 p1 =>
    cases b with
    | nan => exact absurd rfl hb
    | inf n2 =>
      cases n2
      · rfl
      · simp [GoFloat.flt] at h
    | finite m2 p2 =>
      simp only [GoFloat.flt, decide_eq_false_iff_not] at h
      simp only [GoFloat.fle, decide_eq_true_eq]
      exact not_lt.mp h

theorem strLeListb_total (l1 l2 : List Char) :
    strLeListb l1 l2 = true ∨ strLeListb l2 l1 = true := by
  induction l1 generalizing l2 with
  | nil => exact Or.inl rfl
  | cons c t ih =>
    cases l2 with
    | nil => exact Or.inr rfl
    | cons d t2 =>
      by_cases h1 : c.toNat < d.toNat
      · left
        simp [strLeListb, h1]
      · by_cases h2 : d.toNat < c.toNat
        · right
          simp [strLeListb, h1, h2]
        · rcases ih t2 with h | h
          · left
            simp [strLeListb, h1, h2, h]
          · right
            simp [strLeListb, h1, h2, h]

theorem strLeListb_trans (l1 : List Char) :
    ∀ (l2 l3 : List Char), strLeListb l1 l2 = true → strLeListb l2 l3 = true →
      strLeListb l1 l3 = true := by
  induction l1 with
  | nil => intro l2 l3 _ _; rfl
  | cons c t ih =>
    intro l2 l3 h1 h2
    cases l2 with
    | nil => simp [strLeListb] at h1
    | cons d t2 =>
      cases l3 with
      | nil => simp [strLeListb] at h2
      | cons e t3 =>
        simp only [strLeListb] at h1 h2 ⊢
        by_cases hdc : d.toNat < c.toNat
        · rw [if_neg (by omega), if_pos hdc] at h1
          exact absurd h1 (by simp)
        · by_cases hcd : c.toNat < d.toNat
          · by_cases hed : e.toNat < d.toNat
            · rw [if_neg (by omega), if_pos hed] at h2
              exact absurd h2 (by simp)
            · rw [if_pos (by omega)]
          · rw [if_neg hcd, if_neg hdc] at h1
            by_cases hde : d.toNat < e.toNat
            · rw [if_pos (by omega)]
            · by_cases hed : e.toNat < d.toNat
              · rw [if_neg hde, if_pos hed] at h2
                exact absurd h2 (by simp)
              · rw [if_neg hde, if_neg hed] at h2
                rw [if_neg (by omega), if_neg (by omega)]
                exact ih t2 t3 h1 h2

theorem strLeListb_antisymm (l1 : List Char) :
    ∀ (l2 : List Char), strLeListb l1 l2 = true → strLeListb l2 l1 = true → l1 = l2 := by
  induction l1 with
  | nil =>
    intro l2 h1 h2
    cases l2 with
    | nil => rfl
    | cons d t2 => simp [strLeListb] at h2
  | cons c t ih =>
    intro l2 h1 h2
    cases l2 with
    | nil => simp [strLeListb] at h1
    | cons d t2 =>
      simp only [strLeListb] at h1 h2
      by_cases hcd : c.toNat < d.toNat
      · rw [if_neg (by omega), if_pos hcd] at h2
        exact absurd h2 (by simp)
      · by_cases hdc : d.toNat < c.toNat
        · rw [if_neg (by omega), if_pos hdc] at h1
          exact absurd h1 (by simp)
        · have h3 : c.toNat = d.toNat := by omega
          have hc : c = d := Char.eq_of_val_eq (UInt32.toNat.inj h3)
          rw [if_neg hcd, if_neg hdc] at h1
          rw [if_neg hdc, if_neg hcd] at h2
          rw [hc, ih t2 h1 h2]

theorem strLeb_total (a b : String) : strLeb a b = true ∨ strLeb b a = true :=
  strLeListb_total a.data b.data

theorem strLeb_trans (a b c : String) (h1 : strLeb a b = true) (h2 : strLeb b c = true) :
    strLeb a c = true :=
  strLeListb_trans a.data b.data c.data h1 h2

theorem strLeb_antisymm (a b : String) (h1 : strLeb a b = true) (h2 : strLeb b a = true) :
    a = b := by
  obtain ⟨da⟩ := a
  obtain ⟨db⟩ := b
  exact congrArg String.mk (strLeListb_antisymm da db h1 h2)

theorem map_name_orderedInsert (o : GoOption) (l : List GoOption) :
    (List.orderedInsert (fun a b => strLeb a.name b.name = true) o l).map GoOption.name
      = List.orderedInsert (fun a b : String => strLeb a b = true) o.name
          (l.map GoOption.name) := by
  induction l with
  | nil => rfl
  | cons b l ih =>
    show ((if strLeb o.name b.name = true then o :: b :: l
        else b :: List.orderedInsert (fun a b => strLeb a.name b.name = true) o l).map
          GoOption.name)
      = if strLeb o.name b.name = true then o.name :: b.name :: l.map GoOption.name
        else b.name :: List.orderedInsert (fun a b : String => strLeb a b = true) o.name
          (l.map GoOption.name)
    by_cases h : strLeb o.name b.name = true
    · rw [if_pos h, if_pos h]
      rfl
    · rw [if_neg h, if_neg h, List.map_cons, ih]

theorem map_name_sortOptions (l : List GoOption) :
    (sortOptions l).map GoOption.name
      = List.insertionSort (fun a b : String => strLeb a b = true) (l.map GoOption.name) := by
  unfold sortOptions
  induction l with
  | nil => rfl
  | cons o l ih =>
    simp only [List.insertionSort, List.map_cons, ← ih, map_name_orderedInsert]

theorem sortOptions_perm (l : List GoOption) : (sortOptions l).Perm l :=
  List.perm_insertionSort _ l

theorem sortOptions_sorted (l : List GoOption) :
    (sortOptions l).Sorted (fun a b => strLeb a.name b.name = true) :=
  @List.sorted_insertionSort GoOption (fun a b => strLeb a.name b.name = true) _
    ⟨fun a b => strLeb_total a.name b.name⟩
    ⟨fun _ _ _ h1 h2 => strLeb_trans _ _ _ h1 h2⟩ l

theorem find_name_some (l : List GoOption) (n : String) (o : GoOption)
    (hnd : (l.map GoOption.name).Nodup) (ho : o ∈ l) (hname : o.name = n) :
    l.find? (fun x => x.name == n) = some o := by
  induction l with
  | nil => cases ho
  | cons a l ih =>
    rw [List.map_cons, List.nodup_cons] at hnd
    by_cases ha : a.name = n
    · rw [@List.find?_cons_of_pos GoOption (fun x => x.name == n) a _ (by simp [ha])]
      rcases List.mem_cons.mp ho with he | hmem
    
      · rw [he]
      · exfalso
        apply hnd.1
        rw [ha, ← hname]
        exact List.mem_map_of_mem GoOption.name hmem
    · rw [@List.find?_cons_of_neg GoOption (fun x => x.name == n) a _ (by simp [ha])]
      rcases List.mem_cons.mp ho with he | hmem
      · exact absurd (he ▸ hname) ha
      · exact ih hnd.2 hmem

theorem Lookup_mem (c : ConfigSet) (n : String) (o : GoOption)
    (h : c.Lookup n = some o) : o ∈ c.formal ∧ o.name = n := by
  refine ⟨List.mem_of_find?_eq_some h, ?_⟩
  have := List.find?_some h
  simpa using this

theorem docFind_saveToDoc (c : ConfigSet) (n : String) (o : GoOption)
    (hnd : (c.formal.map GoOption.name).Nodup) (h : c.Lookup n = some o) :
    docFind c.saveToDoc n = some o.value.get := by
  obtain ⟨hmem, hname⟩ := Lookup_mem c n o h
  have hperm : (c.visitAllList).Perm c.formal := sortOptions_perm c.formal
  have hnd2 : ((c.visitAllList).map GoOption.name).Nodup :=
    ((hperm.map GoOption.name).nodup_iff).mpr hnd
  have hmem2 : o ∈ c.visitAllList := hperm.mem_iff.mpr hmem
  have hfind : (c.visitAllList).find? (fun x => x.name == n) = some o :=
    find_name_some c.visitAllList n o hnd2 hmem2 hname
  show ((((c.visitAllList).map (fun o => (o.name, o.value.get))).find?
    (fun p => p.1 == n)).map (fun p => p.2)) = some o.value.get
  rw [List.find?_map]
  have hcomp : ((fun p : String × GoAny => p.1 == n) ∘ fun o : GoOption =>
      (o.name, o.value.get)) = fun x : GoOption => x.name == n := rfl
  rw [hcomp, hfind]
  rfl

theorem set_sprint_get (v1 v2 : GoVal) (hs : v1.shapeb v2 = true) (hw : v1.wfb = true) :
    ∃ w, v2.set (goSprint v1.get) = (w, none) ∧ w.get = v1.get := by
  cases v1 with
  | vBool b =>
    cases v2 <;> first
      | (cases b <;> exact ⟨_, rfl, rfl⟩)
      | simp [GoVal.shapeb] at hs
  | vString t =>
    cases v2 <;> first
      | exact ⟨.vString t, rfl, rfl⟩
      | simp [GoVal.shapeb] at hs
  | vInt32 i =>
    cases v2 <;> first
      | (simp only [GoVal.wfb, decide_eq_true_eq] at hw
         refine ⟨.vInt32 i, ?_, rfl⟩
         have hp := goParseInt_goFormatInt i 32 (by norm_num)
           (by exact_mod_cast hw.1) (by exact_mod_cast hw.2)
         simp [GoVal.set, GoVal.get, goSprint, hp]
         done)
      | simp [GoVal.shapeb] at hs
  | vInt64 i =>
    cases v2 <;> first
      | (simp only [GoVal.wfb, decide_eq_true_eq] at hw
         refine ⟨.vInt64 i, ?_, rfl⟩
         have hp := goParseInt_goFormatInt i 64 (by norm_num)
           (by exact_mod_cast hw.1) (by exact_mod_cast hw.2)
         simp [GoVal.set, GoVal.get, goSprint, hp]
         done)
      | simp [GoVal.shapeb] at hs
  | vStringRange p1 val cs al =>
    cases v2 <;> first
      | (rename_i p2 val2 cs2 al2
         simp only [GoVal.shapeb, Bool.and_eq_true, beq_iff_eq] at hs
         obtain ⟨hcs, hal⟩ := hs
         subst hcs
         subst hal
         simp only [GoVal.wfb, Bool.and_eq_true, Bool.or_eq_true, beq_iff_eq] at hw
         obtain ⟨hcon, hor⟩ := hw
         have hmem2 : val ∈ al := by simpa using hcon
         refine ⟨.vStringRange val val cs al, ?_, rfl⟩
         by_cases hcs : cs = true
         · simp [GoVal.set, goSprint, GoVal.get, hcs, hcon, hmem2]
         · simp only [Bool.not_eq_true] at hcs
           subst hcs
           have hlow : goToLower val = val := hor.resolve_left (by simp)
           simp [GoVal.set, goSprint, GoVal.get, hlow, hcon, hmem2]
         done)
      | simp [GoVal.shapeb] at hs
  | vInt32Range p1 val lo hi =>
    cases v2 <;> first
      | (rename_i p2 val2 lo2 hi2
         simp only [GoVal.shapeb, Bool.and_eq_true, beq_iff_eq] at hs
         obtain ⟨hlo, hhi⟩ := hs
         subst hlo
         subst hhi
         simp only [GoVal.wfb, decide_eq_true_eq] at hw
         obtain ⟨h1, h2, h3, h4⟩ := hw
         refine ⟨.vInt32Range val val lo hi, ?_, rfl⟩
         have hp := goParseInt_goFormatInt val 32 (by norm_num)
           (by exact_mod_cast h3) (by exact_mod_cast h4)
         simp only [GoVal.set, goSprint, GoVal.get, hp]
         rw [if_neg (by omega)]
         done)
      | simp [GoVal.shapeb] at hs
  | vInt64Range p1 val lo hi =>
    cases v2 <;> first
      | (rename_i p2 val2 lo2 hi2
         simp only [GoVal.shapeb, Bool.and_eq_true, beq_iff_eq] at hs
         obtain ⟨hlo, hhi⟩ := hs
         subst hlo
         subst hhi
         simp only [GoVal.wfb, decide_eq_true_eq] at hw
         obtain ⟨h1, h2, h3, h4⟩ := hw
         refine ⟨.vInt64Range val val lo hi, ?_, rfl⟩
         have hp := goParseInt_goFormatInt val 64 (by norm_num)
           (by exact_mod_cast h3) (by exact_mod_cast h4)
         simp only [GoVal.set, goSprint, GoVal.get, hp]
         rw [if_neg (by omega)]
         done)
      | simp [GoVal.shapeb] at hs
  | vFloat32 x =>
    cases v2 <;> first
      | (refine ⟨.vFloat32 x, ?_, rfl⟩
         simp [GoVal.set, goSprint, GoVal.get, goParseFloat_goFormatFloat]
         done)
      | simp [GoVal.shapeb] at hs
  | vFloat64 x =>
    cases v2 <;> first
      | (refine ⟨.vFloat64 x, ?_, rfl⟩
         simp [GoVal.set, goSprint, GoVal.get, goParseFloat_goFormatFloat]
         done)
      | simp [GoVal.shapeb] at hs
  | vFloat32Range p1 val lo hi =>
    cases v2 <;> first
      | (rename_i p2 val2 lo2 hi2
         simp only [GoVal.shapeb, Bool.and_eq_true, beq_iff_eq] at hs
         obtain ⟨hlo, hhi⟩ := hs
         subst hlo
         subst hhi
         simp only [GoVal.wfb, Bool.not_eq_true'] at hw
         refine ⟨.vFloat32Range val val lo hi, ?_, rfl⟩
         simp only [GoVal.set, goSprint, GoVal.get, goParseFloat_goFormatFloat]
         rw [if_neg (by simp [hw])]
         done)
      | simp [GoVal.shapeb] at hs
  | vFloat64Range p1 val lo hi =>
    cases v2 <;> first
      | (rename_i p2 val2 lo2 hi2
         simp only [GoVal.shapeb, Bool.and_eq_true, beq_iff_eq] at hs
         obtain ⟨hlo, hhi⟩ := hs
         subst hlo
         subst hhi
         simp only [GoVal.wfb, Bool.not_eq_true'] at hw
         refine ⟨.vFloat64Range val val lo hi, ?_, rfl⟩
         simp only [GoVal.set, goSprint, GoVal.get, goParseFloat_goFormatFloat]
         rw [if_neg (by simp [hw])]
         done)
      | simp [GoVal.shapeb] at hs

theorem goParseBool_err (s : String) (h : (goParseBool s).2 = false) :
    (goParseBool s).1 = false := by
  by_cases h1 : s = "1" ∨ s = "t" ∨ s = "T" ∨ s = "TRUE" ∨ s = "true" ∨ s = "True"
  · rw [goParseBool, if_pos h1] at h
    exact absurd h (by simp)
  · by_cases h2 : s = "0" ∨ s = "f" ∨ s = "F" ∨ s = "FALSE" ∨ s = "false" ∨ s = "False"
    · rw [goParseBool, if_neg h1, if_pos h2]
    · rw [goParseBool, if_neg h1, if_neg h2]

theorem Var_dup (c : ConfigSet) (v : GoVal) (n : String) (h : (c.Lookup n).isSome) :
    c.Var v n = (c, some (GoErr.errOptionRedefined n)) := by
  simp [ConfigSet.Var, h]

theorem Lookup_after_Var (c : ConfigSet) (v : GoVal) (n : String)
    (h : (c.Var v n).2 = none) :
    ((c.Var v n).1.Lookup n).isSome = true := by
  by_cases hl : (c.Lookup n).isSome
  · rw [Var_dup c v n hl] at h
    exact absurd h (by simp)
  · have hvar : c.Var v n = ({ c with formal := c.formal ++ [⟨n, v.str, v⟩] }, none) := by
      simp [ConfigSet.Var, hl]
    rw [hvar]
    show ((c.formal ++ [(⟨n, v.str, v⟩ : GoOption)]).find? (fun o => o.name == n)).isSome = true
    rw [List.find?_append]
    rcases hf : c.formal.find? (fun o => o.name == n) with _ | o
    · simp [List.find?]
    · exfalso
      apply hl
      show (c.formal.find? (fun o => o.name == n)).isSome = true
      rw [hf]
      rfl

theorem sameShape_lookup (l1 l2 : List GoOption) (h : sameShapeb l1 l2 = true) :
    ∀ (n : String) (o1 : GoOption), l1.find? (fun x => x.name == n) = some o1 →
      ∃ o2, l2.find? (fun x => x.name == n) = some o2 ∧ o1.value.shapeb o2.value = true := by
  induction l1 generalizing l2 with
  | nil =>
    intro n o1 hf
    simp [List.find?] at hf
  | cons a1 l1 ih =>
    match l2 with
    | [] => exact absurd h (by simp [sameShapeb])
    | a2 :: l2 =>
      simp only [sameShapeb, Bool.and_eq_true, beq_iff_eq] at h
      obtain ⟨⟨hname, hshape⟩, hrest⟩ := h
      intro n o1 hf
      by_cases ha : a1.name = n
      · rw [@List.find?_cons_of_pos GoOption (fun x => x.name == n) a1 _ (by simp [ha])] at hf
        have ho1 : a1 = o1 := by injection hf
        subst ho1
        exact ⟨a2, @List.find?_cons_of_pos GoOption (fun x => x.name == n) a2 _
          (by simp [← hname, ha]), hshape⟩
      · rw [@List.find?_cons_of_neg GoOption (fun x => x.name == n) a1 _ (by simp [ha])] at hf
        obtain ⟨o2, ho2, hs2⟩ := ih l2 hrest n o1 hf
        exact ⟨o2, by
          rw [@List.find?_cons_of_neg GoOption (fun x => x.name == n) a2 _
            (by simp [← hname, ha])]
          exact ho2, hs2⟩

/-- C1 counterexample: the claim, as stated, fails on the bool wrapper. At
current storage true, Set of a non-boolean string reports ErrParse yet
overwrites the referenced storage with false (ParseBool's zero result). -/
theorem C1_counterexample :
    ((GoVal.vBool true).set "not a bool").2 = some GoErr.errParse ∧
    ((GoVal.vBool true).set "not a bool").1 ≠ GoVal.vBool true := by
  decide

/-- C1 (amended): for the string, int32, int64, float32 and float64 wrappers
a failed Set leaves the referenced storage unchanged (string never fails);
the bool wrapper instead stores false (the zero result ParseBool returns
with its error) on failure. In particular an int64 option registered with
default 0 keeps raw() == 0 after a failed parseFromData assignment of
"not a number", which fails with ErrParse. -/
theorem C1_amended_theorem :
    (∀ (i : Int) (s : String), ((GoVal.vInt64 i).set s).2.isSome →
      ((GoVal.vInt64 i).set s).1 = GoVal.vInt64 i)
  ∧ (∀ (i : Int) (s : String), ((GoVal.vInt32 i).set s).2.isSome →
      ((GoVal.vInt32 i).set s).1 = GoVal.vInt32 i)
  ∧ (∀ (t s : String), ((GoVal.vString t).set s).2 = none)
  ∧ (∀ (Q : Type) (fl : String → Option Q) (cur : Q) (s : String),
      (floatSetG fl cur s).2.isSome → (floatSetG fl cur s).1 = cur)
  ∧ (∀ (b : Bool) (s : String), ((GoVal.vBool b).set s).2.isSome →
      ((GoVal.vBool b).set s).1 = GoVal.vBool false)
  ∧ (((addInt64Option {} "value" 0).1.parseFromData
        [("value", GoAny.aString "not a number")]).2 = some GoErr.errParse
      ∧ ((addInt64Option {} "value" 0).1.parseFromData
        [("value", GoAny.aString "not a number")]).1.getOf "value"
          = some (GoAny.aInt 0)) := by
  refine ⟨?_, ?_, ?_, ?_, ?_, by decide⟩
  · intro i s h
    rcases hp : goParseInt s 64 with _ | x <;> simp [GoVal.set, hp] at h ⊢
  · intro i s h
    rcases hp : goParseInt s 32 with _ | x <;> simp [GoVal.set, hp] at h ⊢
  · intro t s
    rfl
  · intro Q fl cur s h
    rcases hp : fl s with _ | x <;> simp [floatSetG, hp] at h ⊢
  · intro b s h
    simp only [GoVal.set] at h ⊢
    rcases hok : (goParseBool s).2
    · rw [goParseBool_err s hok]
    · rw [hok] at h
      simp at h

/-- C1 witness: the amended theorem applied at concrete inputs. -/
theorem C1_witness :
    ((GoVal.vInt64 0).set "not a number").1 = GoVal.vInt64 0 ∧
    ((GoVal.vInt32 7).set "zz").1 = GoVal.vInt32 7 ∧
    ((GoVal.vBool true).set "zz").1 = GoVal.vBool false ∧
    (floatSetG (fun _ => (none : Option Int)) 3 "zz").1 = 3 :=
  ⟨C1_amended_theorem.1 0 "not a number" (by decide),
   C1_amended_theorem.2.1 7 "zz" (by decide),
   C1_amended_theorem.2.2.2.2.1 true "zz" (by decide),
   C1_amended_theorem.2.2.2.1 Int (fun _ => none) 3 "zz" (by decide)⟩

/-- C2: a name already in actual is skipped by any later ParseFromData: its
option (value included) is untouched and it stays in actual, whatever the
document holds; in particular parsing a document mapping x to 2 after x
was committed to 1 leaves x equal to 1. -/
theorem C2_theorem :
    (∀ (c : ConfigSet) (d : List (String × GoAny)) (n : String), n ∈ c.actual →
      (c.parseFromData d).1.Lookup n = c.Lookup n ∧ n ∈ (c.parseFromData d).1.actual)
  ∧ ((((addStringOption {} "x" "").1.parseFromData [("x", GoAny.aString "1")]).1.parseFromData
        [("x", GoAny.aString "2")]).1.getOf "x" = some (GoAny.aString "1")) := by
  refine ⟨?_, by decide⟩
  intro c d n hn
  exact parseFold_preserve d ((c.visitAllList).map GoOption.name) (c, none) n hn

/-- C2 witness: the general part applied at a concrete one-option set. -/
theorem C2_witness :
    ((ConfigSet.mk [⟨"x", "", GoVal.vString "1"⟩] ["x"]).parseFromData
        [("x", GoAny.aString "2")]).1.Lookup "x"
      = (ConfigSet.mk [⟨"x", "", GoVal.vString "1"⟩] ["x"]).Lookup "x" :=
  (C2_theorem.1 (ConfigSet.mk [⟨"x", "", GoVal.vString "1"⟩] ["x"])
    [("x", GoAny.aString "2")] "x" (by decide)).1

/-- C3: registering a name already present in formal fails with the
redefined error and leaves the whole ConfigSet (formal included)
unchanged; in particular a second Var with the same name after a
successful first one fails this way. -/
theorem C3_theorem :
    (∀ (c : ConfigSet) (v : GoVal) (n : String), (c.Lookup n).isSome →
      c.Var v n = (c, some (GoErr.errOptionRedefined n)))
    ∧ (∀ (c : ConfigSet) (v1 v2 : GoVal) (n : String), (c.Var v1 n).2 = none →
      (c.Var v1 n).1.Var v2 n = ((c.Var v1 n).1, some (GoErr.errOptionRedefined n))) := by
  constructor
  · exact Var_dup
  · intro c v1 v2 n h
    exact Var_dup ((c.Var v1 n).1) v2 n (Lookup_after_Var c v1 n h)

/-- C3 witness: both parts at a concrete set and name. -/
theorem C3_witness :
    (ConfigSet.mk [⟨"x", "", GoVal.vString ""⟩] []).Var (GoVal.vString "y") "x"
      = (ConfigSet.mk [⟨"x", "", GoVal.vString ""⟩] [],
          some (GoErr.errOptionRedefined "x")) :=
  C3_theorem.1 (ConfigSet.mk [⟨"x", "", GoVal.vString ""⟩] []) (GoVal.vString "y") "x"
    (by decide)

/-- C10: IsZeroValue consults only the explicitly-set options: a name that
is registered in formal but absent from actual yields the no-such-option
error, not a zero comparison. -/
theorem C10_theorem :
    ∀ (c : ConfigSet) (n : String), (c.Lookup n).isSome → n ∉ c.actual →
      c.IsZeroValue n = .error (GoErr.errNoSuchActualOption n) := by
  intro c n _ hn
  simp [ConfigSet.IsZeroValue, hn]

/-- C10 witness: a registered, never-set option at a concrete set. -/
theorem C10_witness :
    (ConfigSet.mk [⟨"x", "", GoVal.vString ""⟩] []).IsZeroValue "x"
      = .error (GoErr.errNoSuchActualOption "x") :=
  C10_theorem (ConfigSet.mk [⟨"x", "", GoVal.vString ""⟩] []) "x" (by decide) (by decide)

/-- C9: VisitAll iterates exactly the options of formal and Visit exactly
the options shared with actual, both in lexicographic order by name, and
the visited name sequence is determined by the set of registered names
alone (any two sets with the same names visit the same sequence). -/
theorem C9_theorem :
    (∀ c : ConfigSet, (c.visitAllList).Perm c.formal)
  ∧ (∀ c : ConfigSet, (c.visitAllList).Sorted (fun a b => strLeb a.name b.name = true))
  ∧ (∀ c : ConfigSet,
      (c.visitList).Perm (c.formal.filter (fun o => c.actual.contains o.name)))
  ∧ (∀ c : ConfigSet, (c.visitList).Sorted (fun a b => strLeb a.name b.name = true))
  ∧ (∀ c1 c2 : ConfigSet,
      (c1.formal.map GoOption.name).Perm (c2.formal.map GoOption.name) →
      (c1.visitAllList).map GoOption.name = (c2.visitAllList).map GoOption.name) := by
  refine ⟨fun c => sortOptions_perm c.formal,
    fun c => sortOptions_sorted c.formal,
    fun c => sortOptions_perm _,
    fun c => sortOptions_sorted _,
    ?_⟩
  intro c1 c2 h
  show (sortOptions c1.formal).map GoOption.name = (sortOptions c2.formal).map GoOption.name
  rw [map_name_sortOptions, map_name_sortOptions]
  exact @List.eq_of_perm_of_sorted String (fun a b => strLeb a b = true)
    ⟨fun a b h1 h2 => strLeb_antisymm a b h1 h2⟩ _ _
    (((List.perm_insertionSort _ _).trans h).trans (List.perm_insertionSort _ _).symm)
    (@List.sorted_insertionSort String (fun a b => strLeb a b = true) _
      ⟨fun a b => strLeb_total a b⟩ ⟨fun _ _ _ h1 h2 => strLeb_trans _ _ _ h1 h2⟩ _)
    (@List.sorted_insertionSort String (fun a b => strLeb a b = true) _
      ⟨fun a b => strLeb_total a b⟩ ⟨fun _ _ _ h1 h2 => strLeb_trans _ _ _ h1 h2⟩ _)

/-- C9 witness: two concrete sets holding the same names registered in
opposite order visit the same name sequence. -/
theorem C9_witness :
    ((ConfigSet.mk [⟨"b", "", GoVal.vString ""⟩, ⟨"a", "", GoVal.vString ""⟩]
        []).visitAllList).map GoOption.name
      = ((ConfigSet.mk [⟨"a", "", GoVal.vString ""⟩, ⟨"b", "", GoVal.vString ""⟩]
        []).visitAllList).map GoOption.name :=
  C9_theorem.2.2.2.2
    (ConfigSet.mk [⟨"b", "", GoVal.vString ""⟩, ⟨"a", "", GoVal.vString ""⟩] [])
    (ConfigSet.mk [⟨"a", "", GoVal.vString ""⟩, ⟨"b", "", GoVal.vString ""⟩] [])
    (by decide)

/-- C4 counterexample: the claim, as stated, fails on the code: after the
case-insensitive registration of direction with allowed up, down, left and
right, set of the text LEFT succeeds but raw() is the lowercased left, not
the LEFT the claim requires. -/
theorem C4_counterexample :
    ((((StringRangeVarSet {} "" "direction" "up" false
        ["up", "down", "left", "right"]).1).set "direction" "LEFT").2 = none)
    ∧ ((((StringRangeVarSet {} "" "direction" "up" false
        ["up", "down", "left", "right"]).1).set "direction" "LEFT").1.getOf "direction"
      = some (GoAny.aString "left"))
    ∧ ¬ ((((StringRangeVarSet {} "" "direction" "up" false
        ["up", "down", "left", "right"]).1).set "direction" "LEFT").1.getOf "direction"
      = some (GoAny.aString "LEFT")) := by
  decide

/-- C4 (amended): for a case-insensitive string range a successful assign
stores the lowercased input (both in the wrapper and the caller variable),
not the casing the caller passed; set of LEFT succeeds with raw() equal to
left, and set of sideways still fails with ErrRange leaving the state
unchanged. -/
theorem C4_amended_theorem :
    (∀ (ptr val s : String) (al : List String),
      ((GoVal.vStringRange ptr val false al).set s).2 = none →
      ((GoVal.vStringRange ptr val false al).set s).1
        = GoVal.vStringRange (goToLower s) (goToLower s) false al)
  ∧ ((((StringRangeVarSet {} "" "direction" "up" false
        ["up", "down", "left", "right"]).1).set "direction" "LEFT").2 = none
      ∧ (((StringRangeVarSet {} "" "direction" "up" false
        ["up", "down", "left", "right"]).1).set "direction" "LEFT").1.getOf "direction"
          = some (GoAny.aString "left"))
  ∧ ((((StringRangeVarSet {} "" "direction" "up" false
        ["up", "down", "left", "right"]).1).set "direction" "sideways").2
      = some GoErr.errRange
      ∧ (((StringRangeVarSet {} "" "direction" "up" false
        ["up", "down", "left", "right"]).1).set "direction" "sideways").1
        = (StringRangeVarSet {} "" "direction" "up" false
            ["up", "down", "left", "right"]).1) := by
  refine ⟨?_, by decide, by decide⟩
  intro ptr val s al h
  by_cases hc : goToLower s ∈ al
  · simp [GoVal.set, hc]
  · simp [GoVal.set, hc] at h

/-- C4 witness: the general amended statement at a concrete input. -/
theorem C4_witness :
    ((GoVal.vStringRange "up" "up" false ["up", "down", "left", "right"]).set "LEFT").1
      = GoVal.vStringRange "left" "left" false ["up", "down", "left", "right"] := by
  have h := C4_amended_theorem.1 "up" "up" "LEFT" ["up", "down", "left", "right"] (by decide)
  rw [h]
  decide

/-- C5 counterexample: registering a float64 range option over bounds 0 to
10 with default NaN succeeds, returning no error and making the option
visible via Lookup, even though NaN satisfies neither bound (both IEEE
less-or-equal comparisons against it are false), because the validation
test v greater-than max or v less-than min is false for NaN on both
sides. This refutes the claim that every out-of-range default makes a
range registration fail with the option absent from Lookup. -/
theorem C5_counterexample :
    (Float64RangeSet {} "n" GoFloat.nan (.finite 0 0) (.finite 10 0)).2 = none
  ∧ ((Float64RangeSet {} "n" GoFloat.nan (.finite 0 0) (.finite 10 0)).1.Lookup "n").isSome
      = true
  ∧ GoFloat.fle (.finite 0 0) GoFloat.nan = false
  ∧ GoFloat.fle GoFloat.nan (.finite 10 0) = false := by decide

/-- C5 (amended): every integer and string range registration validates the
default by running Set on it before the Option reaches formal: an
out-of-range numeric default makes Int32RangeVarSet and Int64RangeVarSet
return ErrRange with the ConfigSet unchanged, a default outside the
allowed set does the same for StringRangeVarSet in both case modes, and
in particular an int32 range option with bounds 0 to 10 and default 15
fails registration and stays absent from Lookup. The float range
registrations validate through the same Set call and likewise reject any
default flagged by one of the two IEEE bound comparisons, but a NaN
default passes both comparisons (every IEEE comparison with NaN is
false), so it registers successfully and becomes visible via Lookup. -/
theorem C5_theorem :
    (∀ (c : ConfigSet) (p0 : Int) (key : String) (dv lo hi : Int),
      -(2 ^ 31) ≤ dv → dv < 2 ^ 31 → (dv < lo ∨ hi < dv) →
      Int32RangeVarSet c p0 key dv lo hi = (c, some GoErr.errRange))
  ∧ (∀ (c : ConfigSet) (p0 : Int) (key : String) (dv lo hi : Int),
      -(2 ^ 63) ≤ dv → dv < 2 ^ 63 → (dv < lo ∨ hi < dv) →
      Int64RangeVarSet c p0 key dv lo hi = (c, some GoErr.errRange))
  ∧ (∀ (c : ConfigSet) (pval key dv : String) (al : List String),
      goToLower dv ∉ al.map goToLower →
      StringRangeVarSet c pval key dv false al = (c, some GoErr.errRange))
  ∧ (∀ (c : ConfigSet) (pval key dv : String) (al : List String),
      dv ∉ al →
      StringRangeVarSet c pval key dv true al = (c, some GoErr.errRange))
  ∧ (∀ (c : ConfigSet) (p0 : GoFloat) (key : String) (dv lo hi : GoFloat),
      (GoFloat.flt hi dv || GoFloat.flt dv lo) = true →
      Float64RangeVarSet c p0 key dv lo hi = (c, some GoErr.errRange))
  ∧ (∀ (c : ConfigSet) (p0 : GoFloat) (key : String) (dv lo hi : GoFloat),
      (GoFloat.flt hi dv || GoFloat.flt dv lo) = true →
      Float32RangeVarSet c p0 key dv lo hi = (c, some GoErr.errRange))
  ∧ (∀ (c : ConfigSet) (p0 : GoFloat) (key : String) (lo hi : GoFloat),
      c.Lookup key = none →
      (Float64RangeVarSet c p0 key .nan lo hi).2 = none
        ∧ ((Float64RangeVarSet c p0 key .nan lo hi).1.Lookup key).isSome = true)
  ∧ (∀ (c : ConfigSet) (p0 : GoFloat) (key : String) (lo hi : GoFloat),
      c.Lookup key = none →
      (Float32RangeVarSet c p0 key .nan lo hi).2 = none
        ∧ ((Float32RangeVarSet c p0 key .nan lo hi).1.Lookup key).isSome = true)
  ∧ (Int32RangeSet {} "n" 15 0 10 = ({}, some GoErr.errRange)
      ∧ ((Int32RangeSet {} "n" 15 0 10).1.Lookup "n") = none) := by
  refine ⟨?_, ?_, ?_, ?_, ?_, ?_, ?_, ?_, by decide⟩
  · intro c p0 key dv lo hi hb1 hb2 hout
    have hp := goParseInt_goFormatInt dv 32 (by norm_num)
      (by exact_mod_cast hb1) (by exact_mod_cast hb2)
    unfold Int32RangeVarSet newInt32RangeValue
    simp only [GoVal.set, hp]
    rw [if_pos (by omega : hi < dv ∨ dv < lo)]
  · intro c p0 key dv lo hi hb1 hb2 hout
    have hp := goParseInt_goFormatInt dv 64 (by norm_num)
      (by exact_mod_cast hb1) (by exact_mod_cast hb2)
    unfold Int64RangeVarSet newInt64RangeValue
    simp only [GoVal.set, hp]
    rw [if_pos (by omega : hi < dv ∨ dv < lo)]
  · intro c pval key dv al hout
    unfold StringRangeVarSet newStringRangeVal
    simp only [Bool.false_eq_true, if_false, GoVal.set]
    rw [if_neg (by simpa using hout)]
  · intro c pval key dv al hout
    unfold StringRangeVarSet newStringRangeVal
    simp only [if_true, GoVal.set]
    rw [if_neg (by simpa using hout)]
  · intro c p0 key dv lo hi hout
    unfold Float64RangeVarSet newFloat64RangeValue
    simp only [GoVal.set, goParseFloat_goFormatFloat]
    rw [if_pos hout]
  · intro c p0 key dv lo hi hout
    unfold Float32RangeVarSet newFloat32RangeValue
    simp only [GoVal.set, goParseFloat_goFormatFloat]
    rw [if_pos hout]
  · intro c p0 key lo hi hl
    have hcond : (GoFloat.flt hi GoFloat.nan || GoFloat.flt GoFloat.nan lo) = false := by
      rw [flt_nan_right hi, flt_nan_left lo]
      rfl
    have hvar : Float64RangeVarSet c p0 key .nan lo hi
        = c.Var (GoVal.vFloat64Range .nan .nan lo hi) key := by
      unfold Float64RangeVarSet newFloat64RangeValue
      simp only [GoVal.set, goParseFloat_goFormatFloat, hcond, Bool.false_eq_true, if_false]
      rfl
    rw [hvar]
    have hv2 : (c.Var (GoVal.vFloat64Range .nan .nan lo hi) key).2 = none := by
      simp [ConfigSet.Var, hl]
    exact ⟨hv2, Lookup_after_Var c _ key hv2⟩
  · intro c p0 key lo hi hl
    have hcond : (GoFloat.flt hi GoFloat.nan || GoFloat.flt GoFloat.nan lo) = false := by
      rw [flt_nan_right hi, flt_nan_left lo]
      rfl
    have hvar : Float32RangeVarSet c p0 key .nan lo hi
        = c.Var (GoVal.vFloat32Range .nan .nan lo hi) key := by
      unfold Float32RangeVarSet newFloat32RangeValue
      simp only [GoVal.set, goParseFloat_goFormatFloat, hcond, Bool.false_eq_true, if_false]
      rfl
    rw [hvar]
    have hv2 : (c.Var (GoVal.vFloat32Range .nan .nan lo hi) key).2 = none := by
      simp [ConfigSet.Var, hl]
    exact ⟨hv2, Lookup_after_Var c _ key hv2⟩

/-- C5 witness: the int32 part at bounds 0 to 10 with default 15, the
float64 rejection at default 15 over the same bounds, and the float64 NaN
acceptance in the empty set. -/
theorem C5_witness :
    (Int32RangeVarSet {} 0 "n" 15 0 10 = ({}, some GoErr.errRange))
  ∧ (Float64RangeVarSet {} (.finite 0 0) "m" (.finite 15 0) (.finite 0 0) (.finite 10 0)
      = ({}, some GoErr.errRange))
  ∧ ((Float64RangeVarSet {} (.finite 0 0) "m" .nan (.finite 0 0) (.finite 10 0)).2 = none
      ∧ ((Float64RangeVarSet {} (.finite 0 0) "m" .nan (.finite 0 0)
            (.finite 10 0)).1.Lookup "m").isSome = true) :=
  ⟨C5_theorem.1 {} 0 "n" 15 0 10 (by decide) (by decide) (by decide),
   C5_theorem.2.2.2.2.1 {} (.finite 0 0) "m" (.finite 15 0) (.finite 0 0) (.finite 10 0)
     (by decide),
   C5_theorem.2.2.2.2.2.2.1 {} (.finite 0 0) "m" (.finite 0 0) (.finite 10 0) rfl⟩

/-- C6 counterexample: the float64 range wrapper over bounds 0 to 10,
currently holding the in-range value 5, accepts the text NaN: Set returns
no error and stores NaN in both the val field and the caller variable,
although NaN is within no bounds (both IEEE less-or-equal comparisons
against it are false), because the bound test v greater-than max or v
less-than min is false for NaN. This refutes the claim that the stored
value of every numeric range value is always within the bounds. -/
theorem C6_counterexample :
    (GoVal.vFloat64Range (.finite 5 0) (.finite 5 0) (.finite 0 0) (.finite 10 0)).set "NaN"
      = (GoVal.vFloat64Range .nan .nan (.finite 0 0) (.finite 10 0), none)
  ∧ GoFloat.fle (.finite 0 0) GoFloat.nan = false
  ∧ GoFloat.fle GoFloat.nan (.finite 10 0) = false := by decide

/-- C6 (amended): an integer range wrapper that currently holds an in-range
value keeps its stored value within the inclusive bounds across any
sequence of Set calls; a text parsing to a value inside the bounds (the
endpoints included) is accepted and stored in both the wrapper and the
caller variable, while a text parsing to a value outside them is rejected
with ErrRange (an error distinct from ErrParse) leaving both unchanged.
The float range wrappers enforce the same inclusive bounds for non-NaN
parse results under non-NaN bounds, but a text parsing to NaN is accepted
and stored regardless of the bounds, because both IEEE comparisons of the
bound test are false for NaN; accordingly the float resting state
preserved across any Set sequence is only the code's own bound test
holding of the stored value, which under non-NaN bounds means in-range or
NaN. -/
theorem C6_theorem :
    (∀ (p v lo hi : Int) (ss : List String), lo ≤ v → v ≤ hi →
      ∃ p2 v2, (GoVal.vInt64Range p v lo hi).setSeq ss = GoVal.vInt64Range p2 v2 lo hi
        ∧ lo ≤ v2 ∧ v2 ≤ hi)
  ∧ (∀ (p v lo hi : Int) (ss : List String), lo ≤ v → v ≤ hi →
      ∃ p2 v2, (GoVal.vInt32Range p v lo hi).setSeq ss = GoVal.vInt32Range p2 v2 lo hi
        ∧ lo ≤ v2 ∧ v2 ≤ hi)
  ∧ (∀ (p v lo hi : Int) (s : String) (x : Int), goParseInt s 64 = some x →
      lo ≤ x → x ≤ hi →
      (GoVal.vInt64Range p v lo hi).set s = (GoVal.vInt64Range x x lo hi, none))
  ∧ (∀ (p v lo hi : Int) (s : String) (x : Int), goParseInt s 32 = some x →
      lo ≤ x → x ≤ hi →
      (GoVal.vInt32Range p v lo hi).set s = (GoVal.vInt32Range x x lo hi, none))
  ∧ (∀ (p v lo hi : Int) (s : String) (x : Int), goParseInt s 64 = some x →
      (x < lo ∨ hi < x) →
      (GoVal.vInt64Range p v lo hi).set s
        = (GoVal.vInt64Range p v lo hi, some GoErr.errRange))
  ∧ (∀ (p v lo hi : Int) (s : String) (x : Int), goParseInt s 32 = some x →
      (x < lo ∨ hi < x) →
      (GoVal.vInt32Range p v lo hi).set s
        = (GoVal.vInt32Range p v lo hi, some GoErr.errRange))
  ∧ GoErr.errRange ≠ GoErr.errParse
  ∧ (∀ (p v lo hi : GoFloat) (s : String) (x : GoFloat), goParseFloat s = some x →
      GoFloat.fle lo x = true → GoFloat.fle x hi = true →
      (GoVal.vFloat64Range p v lo hi).set s = (GoVal.vFloat64Range x x lo hi, none))
  ∧ (∀ (p v lo hi : GoFloat) (s : String) (x : GoFloat), goParseFloat s = some x →
      GoFloat.fle lo x = true → GoFloat.fle x hi = true →
      (GoVal.vFloat32Range p v lo hi).set s = (GoVal.vFloat32Range x x lo hi, none))
  ∧ (∀ (p v lo hi : GoFloat) (s : String) (x : GoFloat), goParseFloat s = some x →
      ¬ x = GoFloat.nan → ¬ lo = GoFloat.nan → ¬ hi = GoFloat.nan →
      (GoFloat.fle lo x = false ∨ GoFloat.fle x hi = false) →
      (GoVal.vFloat64Range p v lo hi).set s
        = (GoVal.vFloat64Range p v lo hi, some GoErr.errRange))
  ∧ (∀ (p v lo hi : GoFloat) (s : String) (x : GoFloat), goParseFloat s = some x →
      ¬ x = GoFloat.nan → ¬ lo = GoFloat.nan → ¬ hi = GoFloat.nan →
      (GoFloat.fle lo x = false ∨ GoFloat.fle x hi = false) →
      (GoVal.vFloat32Range p v lo hi).set s
        = (GoVal.vFloat32Range p v lo hi, some GoErr.errRange))
  ∧ (∀ (p v lo hi : GoFloat) (s : String), goParseFloat s = some GoFloat.nan →
      (GoVal.vFloat64Range p v lo hi).set s = (GoVal.vFloat64Range .nan .nan lo hi, none))
  ∧ (∀ (p v lo hi : GoFloat) (s : String), goParseFloat s = some GoFloat.nan →
      (GoVal.vFloat32Range p v lo hi).set s = (GoVal.vFloat32Range .nan .nan lo hi, none))
  ∧ (∀ (p v lo hi : GoFloat) (ss : List String),
      (GoFloat.flt hi v || GoFloat.flt v lo) = false →
      ∃ p2 v2, (GoVal.vFloat64Range p v lo hi).setSeq ss = GoVal.vFloat64Range p2 v2 lo hi
        ∧ (GoFloat.flt hi v2 || GoFloat.flt v2 lo) = false)
  ∧ (∀ (p v lo hi : GoFloat) (ss : List String),
      (GoFloat.flt hi v || GoFloat.flt v lo) = false →
      ∃ p2 v2, (GoVal.vFloat32Range p v lo hi).setSeq ss = GoVal.vFloat32Range p2 v2 lo hi
        ∧ (GoFloat.flt hi v2 || GoFloat.flt v2 lo) = false)
  ∧ (∀ (v lo hi : GoFloat), ¬ lo = GoFloat.nan → ¬ hi = GoFloat.nan →
      ((GoFloat.flt hi v || GoFloat.flt v lo) = false
        ↔ (v = GoFloat.nan ∨ (GoFloat.fle lo v = true ∧ GoFloat.fle v hi = true)))) := by
  have step64 : ∀ (p v lo hi : Int) (s : String), lo ≤ v → v ≤ hi →
      ∃ p2 v2, ((GoVal.vInt64Range p v lo hi).set s).1 = GoVal.vInt64Range p2 v2 lo hi
        ∧ lo ≤ v2 ∧ v2 ≤ hi := by
    intro p v lo hi s h1 h2
    rcases hp : goParseInt s 64 with _ | x
    · exact ⟨p, v, by simp [GoVal.set, hp], h1, h2⟩
    · by_cases hr : hi < x ∨ x < lo
      · exact ⟨p, v, by simp [GoVal.set, hp, hr], h1, h2⟩
      · exact ⟨x, x, by simp [GoVal.set, hp, hr], by omega, by omega⟩
  have step32 : ∀ (p v lo hi : Int) (s : String), lo ≤ v → v ≤ hi →
      ∃ p2 v2, ((GoVal.vInt32Range p v lo hi).set s).1 = GoVal.vInt32Range p2 v2 lo hi
        ∧ lo ≤ v2 ∧ v2 ≤ hi := by
    intro p v lo hi s h1 h2
    rcases hp : goParseInt s 32 with _ | x
    · exact ⟨p, v, by simp [GoVal.set, hp], h1, h2⟩
    · by_cases hr : hi < x ∨ x < lo
      · exact ⟨p, v, by simp [GoVal.set, hp, hr], h1, h2⟩
      · exact ⟨x, x, by simp [GoVal.set, hp, hr], by omega, by omega⟩
  have stepf64 : ∀ (p v lo hi : GoFloat) (s : String),
      (GoFloat.flt hi v || GoFloat.flt v lo) = false →
      ∃ p2 v2, ((GoVal.vFloat64Range p v lo hi).set s).1 = GoVal.vFloat64Range p2 v2 lo hi
        ∧ (GoFloat.flt hi v2 || GoFloat.flt v2 lo) = false := by
    intro p v lo hi s hv
    rcases hp : goParseFloat s with _ | x
    · exact ⟨p, v, by simp [GoVal.set, hp], hv⟩
    · by_cases hr : (GoFloat.flt hi x || GoFloat.flt x lo) = true
      · exact ⟨p, v, by simp [GoVal.set, hp, hr], hv⟩
      · have hr2 : (GoFloat.flt hi x || GoFloat.flt x lo) = false := by
          cases hb : (GoFloat.flt hi x || GoFloat.flt x lo)
          · rfl
          · exact absurd hb hr
        exact ⟨x, x, by simp [GoVal.set, hp, hr2], hr2⟩
  have stepf32 : ∀ (p v lo hi : GoFloat) (s : String),
      (GoFloat.flt hi v || GoFloat.flt v lo) = false →
      ∃ p2 v2, ((GoVal.vFloat32Range p v lo hi).set s).1 = GoVal.vFloat32Range p2 v2 lo hi
        ∧ (GoFloat.flt hi v2 || GoFloat.flt v2 lo) = false := by
    intro p v lo hi s hv
    rcases hp : goParseFloat s with _ | x
    · exact ⟨p, v, by simp [GoVal.set, hp], hv⟩
    · by_cases hr : (GoFloat.flt hi x || GoFloat.flt x lo) = true
      · exact ⟨p, v, by simp [GoVal.set, hp, hr], hv⟩
      · have hr2 : (GoFloat.flt hi x || GoFloat.flt x lo) = false := by
          cases hb : (GoFloat.flt hi x || GoFloat.flt x lo)
          · rfl
          · exact absurd hb hr
        exact ⟨x, x, by simp [GoVal.set, hp, hr2], hr2⟩
  refine ⟨?_, ?_, ?_, ?_, ?_, ?_, by decide, ?_, ?_, ?_, ?_, ?_, ?_, ?_, ?_, ?_⟩
  · intro p v lo hi ss
    induction ss generalizing p v with
    | nil => exact fun h1 h2 => ⟨p, v, rfl, h1, h2⟩
    | cons s ss ih =>
      intro h1 h2
      obtain ⟨p2, v2, he, hv1, hv2⟩ := step64 p v lo hi s h1 h2
      show ∃ p3 v3, GoVal.setSeq ((GoVal.vInt64Range p v lo hi).set s).1 ss = _ ∧ _ ∧ _
      rw [he]
      exact ih p2 v2 hv1 hv2
  · intro p v lo hi ss
    induction ss generalizing p v with
    | nil => exact fun h1 h2 => ⟨p, v, rfl, h1, h2⟩
    | cons s ss ih =>
      intro h1 h2
      obtain ⟨p2, v2, he, hv1, hv2⟩ := step32 p v lo hi s h1 h2
      show ∃ p3 v3, GoVal.setSeq ((GoVal.vInt32Range p v lo hi).set s).1 ss = _ ∧ _ ∧ _
      rw [he]
      exact ih p2 v2 hv1 hv2
  · intro p v lo hi s x hp hx1 hx2
    simp [GoVal.set, hp]
    omega
  · intro p v lo hi s x hp hx1 hx2
    simp [GoVal.set, hp]
    omega
  · intro p v lo hi s x hp hx
    simp [GoVal.set, hp]
    omega
  · intro p v lo hi s x hp hx
    simp [GoVal.set, hp]
    omega
  · intro p v lo hi s x hp hle1 hle2
    have h1 : GoFloat.flt hi x = false := fle_flt_false x hi hle2
    have h2 : GoFloat.flt x lo = false := fle_flt_false lo x hle1
    simp [GoVal.set, hp, h1, h2]
  · intro p v lo hi s x hp hle1 hle2
    have h1 : GoFloat.flt hi x = false := fle_flt_false x hi hle2
    have h2 : GoFloat.flt x lo = false := fle_flt_false lo x hle1
    simp [GoVal.set, hp, h1, h2]
  · intro p v lo hi s x hp hx hlo hhi hor
    have hcond : (GoFloat.flt hi x || GoFloat.flt x lo) = true := by
      rcases hor with h | h
      · cases hb : GoFloat.flt x lo
        · exact absurd (flt_false_fle lo x hlo hx hb) (by rw [h]; exact Bool.false_ne_true)
        · simp [hb]
      · cases hb : GoFloat.flt hi x
        · exact absurd (flt_false_fle x hi hx hhi hb) (by rw [h]; exact Bool.false_ne_true)
        · simp [hb]
    simp [GoVal.set, hp, hcond]
  · intro p v lo hi s x hp hx hlo hhi hor
    have hcond : (GoFloat.flt hi x || GoFloat.flt x lo) = true := by
      rcases hor with h | h
      · cases hb : GoFloat.flt x lo
        · exact absurd (flt_false_fle lo x hlo hx hb) (by rw [h]; exact Bool.false_ne_true)
        · simp [hb]
      · cases hb : GoFloat.flt hi x
        · exact absurd (flt_false_fle x hi hx hhi hb) (by rw [h]; exact Bool.false_ne_true)
        · simp [hb]
    simp [GoVal.set, hp, hcond]
  · intro p v lo hi s hp
    have h1 : GoFloat.flt hi GoFloat.nan = false := flt_nan_right hi
    have h2 : GoFloat.flt GoFloat.nan lo = false := flt_nan_left lo
    simp [GoVal.set, hp, h1, h2]
  · intro p v lo hi s hp
    have h1 : GoFloat.flt hi GoFloat.nan = false := flt_nan_right hi
    have h2 : GoFloat.flt GoFloat.nan lo = false := flt_nan_left lo
    simp [GoVal.set, hp, h1, h2]
  · intro p v lo hi ss
    induction ss generalizing p v with
    | nil => exact fun hv => ⟨p, v, rfl, hv⟩
    | cons s ss ih =>
      intro hv
      obtain ⟨p2, v2, he, hv2⟩ := stepf64 p v lo hi s hv
      show ∃ p3 v3, GoVal.setSeq ((GoVal.vFloat64Range p v lo hi).set s).1 ss = _ ∧ _
      rw [he]
      exact ih p2 v2 hv2
  · intro p v lo hi ss
    induction ss generalizing p v with
    | nil => exact fun hv => ⟨p, v, rfl, hv⟩
    | cons s ss ih =>
      intro hv
      obtain ⟨p2, v2, he, hv2⟩ := stepf32 p v lo hi s hv
      show ∃ p3 v3, GoVal.setSeq ((GoVal.vFloat32Range p v lo hi).set s).1 ss = _ ∧ _
      rw [he]
      exact ih p2 v2 hv2
  · intro v lo hi hlo hhi
    by_cases hv : v = GoFloat.nan
    · subst hv
      simp [flt_nan_right, flt_nan_left]
    · constructor
      · intro h
        rw [Bool.or_eq_false_iff] at h
        exact Or.inr ⟨flt_false_fle lo v hlo hv h.2, flt_false_fle v hi hv hhi h.1⟩
      · rintro (hv2 | ⟨hl1, hl2⟩)
        · exact absurd hv2 hv
        · rw [Bool.or_eq_false_iff]
          exact ⟨fle_flt_false v hi hl2, fle_flt_false lo v hl1⟩

/-- C6 witness: the int64 range parts at concrete inputs with the bounds
included, and the float64 range parts at the same concrete bounds. -/
theorem C6_witness :
    (∃ p2 v2, (GoVal.vInt64Range 5 5 0 10).setSeq ["15", "7", "oops"]
        = GoVal.vInt64Range p2 v2 0 10 ∧ 0 ≤ v2 ∧ v2 ≤ 10)
    ∧ (GoVal.vInt64Range 5 5 0 10).set "10" = (GoVal.vInt64Range 10 10 0 10, none)
    ∧ (GoVal.vInt64Range 5 5 0 10).set "11"
        = (GoVal.vInt64Range 5 5 0 10, some GoErr.errRange)
    ∧ (GoVal.vFloat64Range (.finite 5 0) (.finite 5 0) (.finite 0 0) (.finite 10 0)).set "10"
        = (GoVal.vFloat64Range (.finite 10 0) (.finite 10 0) (.finite 0 0) (.finite 10 0),
            none)
    ∧ (GoVal.vFloat64Range (.finite 5 0) (.finite 5 0) (.finite 0 0) (.finite 10 0)).set "11"
        = (GoVal.vFloat64Range (.finite 5 0) (.finite 5 0) (.finite 0 0) (.finite 10 0),
            some GoErr.errRange) :=
  ⟨C6_theorem.1 5 5 0 10 ["15", "7", "oops"] (by decide) (by decide),
   C6_theorem.2.2.1 5 5 0 10 "10" 10 (by decide) (by decide) (by decide),
   C6_theorem.2.2.2.2.1 5 5 0 10 "11" 11 (by decide) (by decide),
   C6_theorem.2.2.2.2.2.2.2.1 (.finite 5 0) (.finite 5 0) (.finite 0 0) (.finite 10 0)
     "10" (.finite 10 0) (by decide) (by decide) (by decide),
   C6_theorem.2.2.2.2.2.2.2.2.2.1 (.finite 5 0) (.finite 5 0) (.finite 0 0) (.finite 10 0)
     "11" (.finite 11 0) (by decide) (by decide) (by decide) (by decide) (by decide)⟩

/-- C7: after a successful decode, ParseFromData is the trace pipeline that
attempts every formal option in order regardless of failures, and the
error it returns is the most recent per-key failure of that pass (none
when no key failed); concretely, with a first option failing on a range
error, a second succeeding and a third failing to parse, the second is
still committed and the returned error is the last failure, ErrParse. -/
theorem C7_theorem :
    (∀ (c : ConfigSet) (d : List (String × GoAny)),
      c.parseFromData d = ((c.parseTrace d).1, (c.parseTrace d).2.getLast?))
  ∧ (((ConfigSet.mk [⟨"a", "5", GoVal.vInt64Range 5 5 0 10⟩, ⟨"b", "0", GoVal.vInt64 0⟩,
        ⟨"c", "0", GoVal.vInt64 0⟩] []).parseFromData
        [("a", GoAny.aInt 50), ("b", GoAny.aInt 2), ("c", GoAny.aString "zz")]).2
      = some GoErr.errParse
    ∧ ((ConfigSet.mk [⟨"a", "5", GoVal.vInt64Range 5 5 0 10⟩, ⟨"b", "0", GoVal.vInt64 0⟩,
        ⟨"c", "0", GoVal.vInt64 0⟩] []).parseFromData
        [("a", GoAny.aInt 50), ("b", GoAny.aInt 2), ("c", GoAny.aString "zz")]).1.getOf "b"
      = some (GoAny.aInt 2)
    ∧ ((ConfigSet.mk [⟨"a", "5", GoVal.vInt64Range 5 5 0 10⟩, ⟨"b", "0", GoVal.vInt64 0⟩,
        ⟨"c", "0", GoVal.vInt64 0⟩] []).parseFromData
        [("a", GoAny.aInt 50), ("b", GoAny.aInt 2), ("c", GoAny.aString "zz")]).1.getOf "a"
      = some (GoAny.aInt 5)) := by
  refine ⟨?_, by decide⟩
  intro c d
  obtain ⟨h1, h2⟩ := parseFold_trace d ((c.visitAllList).map GoOption.name) c none [] rfl
  exact Prod.ext_iff.mpr ⟨h1, h2⟩

/-- C8: save/parse round trip. For a ConfigSet whose explicitly-set options
hold Set-reachable values (wfActualb, what set produces: see set_wfb), the
document SaveTo hands the encoder, fed through ParseFromData on a fresh
ConfigSet with identically-shaped options, reproduces an equal raw (Get)
value for every explicitly-set option. -/
theorem C8_theorem (c1 c2 : ConfigSet)
    (hnd1 : (c1.formal.map GoOption.name).Nodup)
    (hnd2 : (c2.formal.map GoOption.name).Nodup)
    (hA2 : c2.actual = [])
    (hshape : sameShapeb c1.formal c2.formal = true)
    (hwf : wfActualb c1 = true) :
    ∀ n ∈ c1.actual, (c2.parseFromData c1.saveToDoc).1.getOf n = c1.getOf n := by
  intro n hn
  have hwfn := (List.all_eq_true.mp hwf) n hn
  rcases hlk1 : c1.Lookup n with _ | o1
  · rw [hlk1] at hwfn
    exact absurd hwfn (by simp)
  · rw [hlk1] at hwfn
    obtain ⟨o2, hlk2, hshape12⟩ := sameShape_lookup c1.formal c2.formal hshape n o1 hlk1
    obtain ⟨w, hset, hget⟩ := set_sprint_get o1.value o2.value hshape12 hwfn
    have hdoc : docFind c1.saveToDoc n = some o1.value.get :=
      docFind_saveToDoc c1 n o1 hnd1 hlk1
    have hperm2 : ((c2.visitAllList).map GoOption.name).Perm (c2.formal.map GoOption.name) :=
      (sortOptions_perm c2.formal).map GoOption.name
    have hndL : ((c2.visitAllList).map GoOption.name).Nodup := hperm2.nodup_iff.mpr hnd2
    obtain ⟨hmem2, hname2⟩ := Lookup_mem c2 n o2 hlk2
    have hnL : n ∈ (c2.visitAllList).map GoOption.name := by
      apply hperm2.mem_iff.mpr
      rw [← hname2]
      exact List.mem_map_of_mem GoOption.name hmem2
    have hfold := parseFold_hit c1.saveToDoc ((c2.visitAllList).map GoOption.name)
      (c2, none) n o2 o1.value.get w hndL hnL (by rw [hA2]; exact List.not_mem_nil n)
      hlk2 hdoc hset
    show ((ConfigSet.parseFromData c2 c1.saveToDoc).1.Lookup n).map (fun o => o.value.get)
      = (c1.getOf n)
    rw [show ConfigSet.parseFromData c2 c1.saveToDoc
      = ((c2.visitAllList).map GoOption.name).foldl (parseStep c1.saveToDoc) (c2, none)
      from rfl, hfold]
    rw [ConfigSet.getOf, hlk1]
    simp [hget]

/-- C8 witness: the round trip at a concrete two-option set where only x
was explicitly set. -/
theorem C8_witness :
    ((ConfigSet.mk [⟨"x", "", GoVal.vString ""⟩, ⟨"y", "0", GoVal.vInt64 0⟩]
        []).parseFromData
      ((ConfigSet.mk [⟨"x", "", GoVal.vString "hi"⟩, ⟨"y", "0", GoVal.vInt64 0⟩]
        ["x"]).saveToDoc)).1.getOf "x"
      = (ConfigSet.mk [⟨"x", "", GoVal.vString "hi"⟩, ⟨"y", "0", GoVal.vInt64 0⟩]
          ["x"]).getOf "x" :=
  C8_theorem
    (ConfigSet.mk [⟨"x", "", GoVal.vString "hi"⟩, ⟨"y", "0", GoVal.vInt64 0⟩] ["x"])
    (ConfigSet.mk [⟨"x", "", GoVal.vString ""⟩, ⟨"y", "0", GoVal.vInt64 0⟩] [])
    (by decide) (by decide) (by decide) (by decide) (by decide) "x" (by decide)
